import Mathlib

/-!
# Colorful Tetris: the game engine of `src/pages/Index.jsx`

A shallow embedding of the engine functions of the React component
(`isValidPosition`, `placeShape`, `clearLines`, `randomShape` and the
command handlers of `Tetris`) followed by theorems about them.

Conventions of the embedding.

* JavaScript numbers that the engine uses are integers; they are `Int`
  (coordinates, score) or `Nat` (loop indices, line counts).
* A computation that can throw a `TypeError` (reading a property of
  `undefined` or of `null`) returns `Option`; `none` is the throw.
* React state is passed explicitly: a command maps the `State` the handler
  closed over to the state made of the values handed to the setters.
* `Math.random` is replaced by an explicit pair of catalog indices.
-/

namespace Tetris

/-! ## Constants and data -/

def BOARD_WIDTH : Nat := 10

def BOARD_HEIGHT : Nat := 20

/-- The seven color tokens of `COLORS`. -/
inductive Color
  | cyan | yellow | purple | green | red | blue | orange
  deriving DecidableEq, Repr

/-- The string each color token stands for. -/
def Color.token : Color → String
  | .cyan => "cyan.500"
  | .yellow => "yellow.500"
  | .purple => "purple.500"
  | .green => "green.500"
  | .red => "red.500"
  | .blue => "blue.500"
  | .orange => "orange.500"

def COLORS : List Color :=
  [.cyan, .yellow, .purple, .green, .red, .blue, .orange]

/-- An entry of a shape matrix: a number, or `undefined` (what `row[i]`
yields past the end of a row). -/
inductive SVal
  | num (n : Int)
  | undefined
  deriving DecidableEq, Repr

abbrev Shape := List (List SVal)

/-- A shape matrix written with number literals. -/
def ofRows (rows : List (List Int)) : Shape :=
  rows.map fun row => row.map SVal.num

def SHAPES : List Shape :=
  [ ofRows [[1, 1, 1, 1]],
    ofRows [[1, 1],
            [1, 1]],
    ofRows [[1, 1, 0],
            [0, 1, 1]],
    ofRows [[0, 1, 1],
            [1, 1, 0]],
    ofRows [[1, 1, 1],
            [0, 1, 0]],
    ofRows [[1, 1, 1],
            [0, 0, 1]],
    ofRows [[1, 1, 1],
            [1, 0, 0]] ]

/-- A board cell: a number (`0` is the empty cell that `createEmptyBoard`
writes), a color token string (what `placeShape` writes), or an array hole
(left in a row by an assignment past the row's end). -/
inductive Cell
  | num (n : Int)
  | color (c : Color)
  | hole
  deriving DecidableEq, Repr

abbrev Row := List Cell

/-- A board is an array of rows. The rows of one board are distinct array
objects (`createEmptyBoard` and `clearLines` only ever insert fresh rows), so
in-place writes are modelled by value. -/
abbrev Board := List Row

/-- The row `Array(BOARD_WIDTH).fill(0)`. -/
def emptyRow : Row := List.replicate BOARD_WIDTH (Cell.num 0)

def createEmptyBoard : Board := List.replicate BOARD_HEIGHT emptyRow

/-! ## Array helpers -/

/-- The method `Array.prototype.every` with the element index passed to the
callback; the scan stops at the first `false`, and a throwing callback aborts it. -/
def everyFrom {α : Type} (f : α → Nat → Option Bool) : Nat → List α → Option Bool
  | _, [] => some true
  | i, a :: as =>
    match f a i with
    | none => none
    | some false => some false
    | some true => everyFrom f (i + 1) as

/-- The method `Array.prototype.forEach` with the element index, threading the
mutated board; a throwing callback aborts it. -/
def forEachFrom {α σ : Type} (f : σ → α → Nat → Option σ) : Nat → List α → σ → Option σ
  | _, [], s => some s
  | i, a :: as, s =>
    match f s a i with
    | none => none
    | some t => forEachFrom f (i + 1) as t

/-- The read `board[ny]`: `none` is `undefined` (a negative or too large index). -/
def rowAt (board : Board) (ny : Int) : Option Row :=
  if ny < 0 then none else board.get? ny.toNat

/-- The test `row[nx] === 0`: only the number zero is strictly equal to `0`; a missing
element and a hole read as `undefined`. -/
def readsZero (row : Row) (nx : Int) : Bool :=
  if nx < 0 then false else decide (row.get? nx.toNat = some (Cell.num 0))

/-- The assignment `row[nx] = v` on an array: a negative key adds a plain property and changes
no element; an index past the end grows the array, leaving holes. -/
def setAt (row : Row) (nx : Int) (v : Cell) : Row :=
  if nx < 0 then row
  else if nx.toNat < row.length then row.set nx.toNat v
  else row ++ List.replicate (nx.toNat - row.length) Cell.hole ++ [v]

/-! ## Engine functions -/

/-- The callback of the inner `every` of `isValidPosition`. -/
def cellValid (board : Board) (x y : Int) (dy : Nat) (value : SVal) (dx : Nat) : Option Bool :=
  let nx := x + dx
  let ny := y + dy
  if value = SVal.num 0 then some true
  else if ny < BOARD_HEIGHT ∧ nx ≥ 0 ∧ nx < BOARD_WIDTH then
    match rowAt board ny with
    | none => none
    | some row => some (readsZero row nx)
  else some false

def isValidPosition (board : Board) (shape : Shape) (x y : Int) : Option Bool :=
  everyFrom (fun row dy => everyFrom (cellValid board x y dy) 0 row) 0 shape

/-- The assignment `board[ny][nx] = color` of `placeShape`, reached only with
`ny >= 0`. -/
def writeCell (board : Board) (nx ny : Int) (color : Color) : Option Board :=
  match board.get? ny.toNat with
  | none => none
  | some row => some (board.set ny.toNat (setAt row nx (Cell.color color)))

/-- The callback of the inner `forEach` of `placeShape`. -/
def placeCell (x y : Int) (color : Color) (dy : Nat) (board : Board) (value : SVal) (dx : Nat) :
    Option Board :=
  if value = SVal.num 1 then
    let nx := x + dx
    let ny := y + dy
    if ny ≥ 0 then writeCell board nx ny color else some board
  else some board

/-- The function `placeShape` mutates the board; the model returns the mutated board. -/
def placeShape (board : Board) (shape : Shape) (x y : Int) (color : Color) : Option Board :=
  forEachFrom (fun b row dy => forEachFrom (placeCell x y color dy) 0 row b) 0 shape board

/-- The callback `(value) => value > 0` of `clearLines`: a color token string
converts to `NaN`, and `NaN > 0` is false. -/
def gtZero : Cell → Bool
  | .num n => decide (n > 0)
  | .color _ => false
  | .hole => true

/-- The test `board[y].every((value) => value > 0)`; `every` does not visit holes, which
`gtZero` answers with `true`. -/
def isFullRow (row : Row) : Bool := row.all gtZero

/-- The `for` loop of `clearLines` with `y + 1` equal to the first argument:
the loop variable is decremented after every iteration, also after one that
removed a row. -/
def clearLinesLoop : Nat → Board → Nat → Option (Board × Nat)
  | 0, board, lines => some (board, lines)
  | y + 1, board, lines =>
    match board.get? y with
    | none => none
    | some row =>
      if isFullRow row then
        clearLinesLoop y (emptyRow :: board.eraseIdx y) (lines + 1)
      else
        clearLinesLoop y board lines

/-- The function `clearLines` mutates the array it is given and returns the count; the model
returns both. -/
def clearLines (board : Board) : Option (Board × Nat) :=
  clearLinesLoop BOARD_HEIGHT board 0

structure Piece where
  shape : Shape
  color : Color
  deriving DecidableEq, Repr

/-- The two values `Math.floor(Math.random() * 7)` takes in `randomShape`. -/
structure Rand where
  shapeIdx : Fin 7
  colorIdx : Fin 7
  deriving DecidableEq, Repr

def randomShape (r : Rand) : Piece :=
  { shape := SHAPES.get ⟨r.shapeIdx.val, r.shapeIdx.isLt⟩
    color := COLORS.get ⟨r.colorIdx.val, r.colorIdx.isLt⟩ }

structure Position where
  x : Int
  y : Int
  deriving DecidableEq, Repr

/-- The five `useState` cells of the `Tetris` component. -/
structure State where
  board : Board
  current : Option Piece
  position : Position
  score : Int
  isRunning : Bool
  deriving DecidableEq, Repr

/-- The state of the first render. -/
def initialState : State :=
  { board := createEmptyBoard
    current := none
    position := { x := 0, y := 0 }
    score := 0
    isRunning := false }

/-- The position `{ x: Math.floor(BOARD_WIDTH / 2) - 1, y: 0 }`. -/
def spawnPosition : Position := { x := (BOARD_WIDTH / 2 : Nat) - 1, y := 0 }

def moveLeft (s : State) : Option State :=
  match s.current with
  | none => none
  | some cur =>
    let newX := s.position.x - 1
    match isValidPosition s.board cur.shape newX s.position.y with
    | none => none
    | some true => some { s with position := { s.position with x := newX } }
    | some false => some s

def moveRight (s : State) : Option State :=
  match s.current with
  | none => none
  | some cur =>
    let newX := s.position.x + 1
    match isValidPosition s.board cur.shape newX s.position.y with
    | none => none
    | some true => some { s with position := { s.position with x := newX } }
    | some false => some s

/-- The matrix `rotated` that `rotateShape` computes: the transpose, built by
mapping over the first row, with every row then reversed. -/
def rotated (shape : Shape) : Option Shape :=
  match shape with
  | [] => none
  | row0 :: _ =>
    some (((List.range row0.length).map fun i =>
      shape.map fun row => row.getD i SVal.undefined).map List.reverse)

def rotateShape (s : State) : Option State :=
  match s.current with
  | none => none
  | some cur =>
    match rotated cur.shape with
    | none => none
    | some rot =>
      match isValidPosition s.board rot s.position.x s.position.y with
      | none => none
      | some true => some { s with current := some { cur with shape := rot } }
      | some false => some s

/-- In the lock branch `setBoard([...board])` copies the array after
`placeShape` and before `clearLines`, and `clearLines` then splices the array
that was copied from. -/
def dropShape (s : State) (r : Rand) : Option State :=
  match s.current with
  | none => none
  | some cur =>
    let newY := s.position.y + 1
    match isValidPosition s.board cur.shape s.position.x newY with
    | none => none
    | some true => some { s with position := { s.position with y := newY } }
    | some false =>
      if s.position.y = 0 then some { s with isRunning := false }
      else
        match placeShape s.board cur.shape s.position.x s.position.y cur.color with
        | none => none
        | some placed =>
          let copy := placed
          match clearLines placed with
          | none => none
          | some (_, clearedLines) =>
            some { board := copy
                   current := some (randomShape r)
                   position := spawnPosition
                   score := s.score + clearedLines * 100
                   isRunning := s.isRunning }

def startGame (_s : State) (r : Rand) : State :=
  { board := createEmptyBoard
    current := some (randomShape r)
    position := spawnPosition
    score := 0
    isRunning := true }

/-- The keys `handleKeyDown` switches on; `other` is the `default` case. -/
inductive Key
  | arrowLeft | arrowRight | arrowUp | arrowDown | other
  deriving DecidableEq, Repr

def handleKeyDown (s : State) (r : Rand) (key : Key) : Option State :=
  if !s.isRunning then some s
  else
    match key with
    | .arrowLeft => moveLeft s
    | .arrowRight => moveRight s
    | .arrowUp => rotateShape s
    | .arrowDown => dropShape s r
    | .other => some s

/-- The delay handed to `useInterval`: `null` (no timer) unless running. -/
def tickDelay (s : State) : Option Nat :=
  if s.isRunning then some 500 else none

/-! ## Notions used by the specification -/

/-- A cell is non-empty when it is not the number `0` (the test `color !== 0`
of the renderer, the negation of the `=== 0` of `isValidPosition`). -/
def Cell.nonEmpty (v : Cell) : Bool := v != Cell.num 0

/-- The specification's full row: every cell is non-empty. This follows the
specification's words; the code's own test is `isFullRow`. -/
def allNonEmpty (row : Row) : Bool := row.all Cell.nonEmpty

/-- Indices of the rows of a board that are full in the specification's sense. -/
def fullRowIndices (board : Board) : List Nat :=
  (List.range board.length).filter fun i => allNonEmpty (board.getD i [])

/-- The entry `shape[dy][dx]`, if there is one. -/
def shapeAt (shape : Shape) (dy dx : Nat) : Option SVal :=
  (shape.get? dy).bind fun row => row.get? dx

/-- The cell `board[r][c]` for integer coordinates, if there is one. -/
def cellAt (board : Board) (r c : Int) : Option Cell :=
  if r < 0 ∨ c < 0 then none else (board.get? r.toNat).bind fun row => row.get? c.toNat

/-- Number of entries equal to `1` in a shape matrix. -/
def occupiedCount (shape : Shape) : Nat :=
  (shape.map fun row => row.count (SVal.num 1)).sum

/-- A matrix with `h` rows of `w` entries each. -/
def IsRect (shape : Shape) (h w : Nat) : Prop :=
  shape.length = h ∧ ∀ row ∈ shape, row.length = w

/-- Four successive computations of `rotated`. -/
def rotatedFour (shape : Shape) : Option Shape :=
  (((rotated shape).bind rotated).bind rotated).bind rotated

/-! ## Sample boards and states -/

/-- A row of ten cells holding the number `1`. -/
def onesRow : Row := List.replicate BOARD_WIDTH (Cell.num 1)

/-- A row of ten cells holding the token `"cyan.500"`. -/
def cyanRow : Row := List.replicate BOARD_WIDTH (Cell.color Color.cyan)

/-- Rows 18 and 19 hold the number `1` in every cell, rows 0 to 17 are empty. -/
def adjacentOnesBoard : Board := List.replicate 18 emptyRow ++ [onesRow, onesRow]

/-- Rows 18 and 19 hold `"cyan.500"` in every cell, rows 0 to 17 are empty. -/
def adjacentCyanBoard : Board := List.replicate 18 emptyRow ++ [cyanRow, cyanRow]

/-- Row 19 holds `"cyan.500"` in every cell, rows 0 to 18 are empty. -/
def bottomCyanBoard : Board := List.replicate 19 emptyRow ++ [cyanRow]

/-- Row 19 holds the number `1` in every cell, rows 0 to 18 are empty. -/
def bottomOnesBoard : Board := List.replicate 19 emptyRow ++ [onesRow]

/-- The 2x2 square of the catalog resting on the full bottom row of
`bottomOnesBoard`, at anchor (4, 17). -/
def squareOnOnes : State :=
  { board := bottomOnesBoard
    current := some { shape := ofRows [[1, 1], [1, 1]], color := Color.yellow }
    position := { x := 4, y := 17 }
    score := 0
    isRunning := true }

/-- A row of `"cyan.500"` cells with columns 4 and 5 empty. -/
def gapRow : Row :=
  List.replicate 4 (Cell.color Color.cyan) ++ List.replicate 2 (Cell.num 0) ++
    List.replicate 4 (Cell.color Color.cyan)

/-- Rows 18 and 19 are `gapRow`, rows 0 to 17 are empty. -/
def gapBoard : Board := List.replicate 18 emptyRow ++ [gapRow, gapRow]

/-- The 2x2 square of the catalog in the gap of `gapBoard`, at anchor (4, 18),
with score `sc`. -/
def squareInGap (sc : Int) : State :=
  { board := gapBoard
    current := some { shape := ofRows [[1, 1], [1, 1]], color := Color.yellow }
    position := { x := 4, y := 18 }
    score := sc
    isRunning := true }

/-- Row 1 holds `"cyan.500"` in every cell, every other row is empty. -/
def blockedBoard : Board := emptyRow :: cyanRow :: List.replicate 18 emptyRow

/-- The 1x4 bar at the spawn anchor (4, 0) over `blockedBoard`. -/
def blockedSpawn : State :=
  { board := blockedBoard
    current := some { shape := ofRows [[1, 1, 1, 1]], color := Color.red }
    position := { x := 4, y := 0 }
    score := 300
    isRunning := true }

/-- The 1x4 bar of color `c` at anchor (4, k) over the empty board, with score
`sc`, running. -/
def barAt (sc : Int) (c : Color) (k : Nat) : State :=
  { board := createEmptyBoard
    current := some { shape := ofRows [[1, 1, 1, 1]], color := c }
    position := { x := 4, y := k }
    score := sc
    isRunning := true }

/-- The empty board with columns 4 to 7 of row 19 holding the color `c`. -/
def barLockedBoard (c : Color) : Board :=
  List.replicate 19 emptyRow ++
    [List.replicate 4 (Cell.num 0) ++ List.replicate 4 (Cell.color c) ++
      List.replicate 2 (Cell.num 0)]

/-! ## Grids, reachable states and command sequences -/

/-- A board of `BOARD_HEIGHT` rows with `BOARD_WIDTH` cells each. -/
def IsGrid (board : Board) : Prop :=
  board.length = BOARD_HEIGHT ∧ ∀ row ∈ board, row.length = BOARD_WIDTH

/-- Number of non-empty cells of a board. -/
def nonEmptyCount (board : Board) : Nat :=
  (board.map fun row => row.countP Cell.nonEmpty).sum

/-- The shape anchored at (x, y) has an entry `1` over the board cell in row `r`
and column `c`, that is at offset (c - x, r - y). -/
def OccupiedAt (shape : Shape) (x y r c : Int) : Prop :=
  ∃ dy dx : Nat, shapeAt shape dy dx = some (SVal.num 1) ∧ y + dy = r ∧ x + dx = c

/-- States reachable from a `startGame` call by the four piece commands; a
command that throws yields no state. -/
inductive Reachable : State → Prop
  | start (s0 : State) (r : Rand) : Reachable (startGame s0 r)
  | left {s t : State} : Reachable s → moveLeft s = some t → Reachable t
  | right {s t : State} : Reachable s → moveRight s = some t → Reachable t
  | rotate {s t : State} : Reachable s → rotateShape s = some t → Reachable t
  | drop {s t : State} (r : Rand) : Reachable s → dropShape s r = some t → Reachable t

/-- States reachable from the state of the first render by the five commands. -/
inductive ReachableFromInitial : State → Prop
  | init : ReachableFromInitial initialState
  | start {s : State} (r : Rand) : ReachableFromInitial s → ReachableFromInitial (startGame s r)
  | left {s t : State} : ReachableFromInitial s → moveLeft s = some t → ReachableFromInitial t
  | right {s t : State} : ReachableFromInitial s → moveRight s = some t → ReachableFromInitial t
  | rotate {s t : State} :
      ReachableFromInitial s → rotateShape s = some t → ReachableFromInitial t
  | drop {s t : State} (r : Rand) :
      ReachableFromInitial s → dropShape s r = some t → ReachableFromInitial t

/-- A command of the engine, with the random draw where one is made. -/
inductive Cmd
  | startGame (r : Rand)
  | moveLeft
  | moveRight
  | rotateShape
  | dropShape (r : Rand)
  deriving DecidableEq, Repr

/-- One command applied to a state. -/
def Cmd.apply (s : State) : Cmd → Option State
  | .startGame r => some (Tetris.startGame s r)
  | .moveLeft => Tetris.moveLeft s
  | .moveRight => Tetris.moveRight s
  | .rotateShape => Tetris.rotateShape s
  | .dropShape r => Tetris.dropShape s r

/-- A sequence of commands applied in order. -/
def runCmds : State → List Cmd → Option State
  | s, [] => some s
  | s, c :: cs =>
    match c.apply s with
    | none => none
    | some t => runCmds t cs

/-- The 1x4 bar with its first cell in column 0, at anchor (0, 5) over the empty
board. -/
def leftEdgeState : State :=
  { board := createEmptyBoard
    current := some { shape := ofRows [[1, 1, 1, 1]], color := Color.blue }
    position := { x := 0, y := 5 }
    score := 0
    isRunning := true }

/-- The draw that spawns the 1x4 bar with the first color. -/
def barDraw : Rand := { shapeIdx := 0, colorIdx := 0 }

/-- One piece of the stacking game: rotate the bar upright, then `n` drops. -/
def uprightBar (n : Nat) : List Cmd :=
  Cmd.rotateShape :: List.replicate n (Cmd.dropShape barDraw)

/-- A game played from the first render: start, stack four upright bars in
column 4 (17, 13, 9 and 5 drops, the last drop of each locking it), then rotate
the fifth bar and drop once. -/
def stackingGame : List Cmd :=
  Cmd.startGame barDraw ::
    (uprightBar 17 ++ uprightBar 13 ++ uprightBar 9 ++ uprightBar 5 ++ uprightBar 1)

/-- Every cell of the board is the number `0` or a color token: the only values
the component ever stores in a cell (`fill(0)` and `board[ny][nx] = color`). -/
def ZeroOrToken (board : Board) : Prop :=
  ∀ row ∈ board, ∀ v ∈ row, v = Cell.num 0 ∨ ∃ c : Color, v = Cell.color c

/-- The invariant of the reachable states: a 20x10 board with an empty row 0,
a present piece whose shape is a rectangle with at least one cell, an anchor
with y >= 0 that is a valid placement as soon as y > 0, and a score that is a
multiple of 100. -/
def WellFormed (s : State) : Prop :=
  IsGrid s.board ∧ s.board.get? 0 = some emptyRow ∧ 0 ≤ s.position.y ∧
  (∃ k : Nat, s.score = 100 * (k : Int)) ∧
  ∃ cur : Piece, s.current = some cur ∧
    (∃ h w : Nat, IsRect cur.shape h w ∧ 0 < h ∧ 0 < w) ∧
    (0 < s.position.y →
      isValidPosition s.board cur.shape s.position.x s.position.y = some true)

/-! ## The commands, branch by branch -/

theorem dropShape_lock (s : State) (r : Rand) (cur : Piece) (placed cleared : Board) (n : Nat)
    (hc : s.current = some cur)
    (hv : isValidPosition s.board cur.shape s.position.x (s.position.y + 1) = some false)
    (hy : s.position.y ≠ 0)
    (hp : placeShape s.board cur.shape s.position.x s.position.y cur.color = some placed)
    (hcl : clearLines placed = some (cleared, n)) :
    dropShape s r = some
      { board := placed
        current := some (randomShape r)
        position := spawnPosition
        score := s.score + n * 100
        isRunning := s.isRunning } := by
  simp [dropShape, hc, hv, hy, hp, hcl]

theorem dropShape_gameOver (s : State) (r : Rand) (cur : Piece)
    (hc : s.current = some cur)
    (hv : isValidPosition s.board cur.shape s.position.x (s.position.y + 1) = some false)
    (hy : s.position.y = 0) :
    dropShape s r = some { s with isRunning := false } := by
  rw [hy] at hv
  simp only [zero_add] at hv
  simp [dropShape, hc, hv, hy]

/-! ## Line clearing -/

/-- C1: with rows 18 and 19 both full (every cell non-empty) and all other rows
empty, `clearLines` returns 1, not 2, when the cells hold the number 1 (it
removes row 19 and leaves the former row 18 in place at index 19), and returns
0 and changes nothing when the cells hold a color token. -/
theorem clearLines_adjacent_full_rows :
    fullRowIndices adjacentOnesBoard = [18, 19] ∧
    clearLines adjacentOnesBoard = some (List.replicate 19 emptyRow ++ [onesRow], 1) ∧
    fullRowIndices adjacentCyanBoard = [18, 19] ∧
    clearLines adjacentCyanBoard = some (adjacentCyanBoard, 0) := by
  refine ⟨by decide, by decide, by decide, by decide⟩

/-- Remark on the order of `setBoard([...board])` and `clearLines`, on a board
the component itself never builds (cells holding the number 1): the 2x2 square
locks on top of a full bottom row of ones, `clearLines` removes that row from
the array it is given and one line is scored, but the board of the new state is
the board as it was after `placeShape`. -/
theorem dropShape_board_not_cleared (r : Rand) :
    ∃ placed cleared : Board,
      placeShape squareOnOnes.board (ofRows [[1, 1], [1, 1]]) 4 17 Color.yellow = some placed ∧
      clearLines placed = some (cleared, 1) ∧
      cleared ≠ placed ∧
      cleared.get? 19 ≠ some onesRow ∧
      placed.get? 19 = some onesRow ∧
      (dropShape squareOnOnes r).map State.board = some placed ∧
      (dropShape squareOnOnes r).map State.score = some 100 := by
  have hp : placeShape squareOnOnes.board (ofRows [[1, 1], [1, 1]]) 4 17 Color.yellow
      = some (List.replicate 17 emptyRow ++
          [List.replicate 4 (Cell.num 0) ++ List.replicate 2 (Cell.color Color.yellow) ++
              List.replicate 4 (Cell.num 0),
           List.replicate 4 (Cell.num 0) ++ List.replicate 2 (Cell.color Color.yellow) ++
              List.replicate 4 (Cell.num 0),
           onesRow]) := by decide
  have hcl : clearLines (List.replicate 17 emptyRow ++
          [List.replicate 4 (Cell.num 0) ++ List.replicate 2 (Cell.color Color.yellow) ++
              List.replicate 4 (Cell.num 0),
           List.replicate 4 (Cell.num 0) ++ List.replicate 2 (Cell.color Color.yellow) ++
              List.replicate 4 (Cell.num 0),
           onesRow])
      = some (List.replicate 18 emptyRow ++
          [List.replicate 4 (Cell.num 0) ++ List.replicate 2 (Cell.color Color.yellow) ++
              List.replicate 4 (Cell.num 0),
           List.replicate 4 (Cell.num 0) ++ List.replicate 2 (Cell.color Color.yellow) ++
              List.replicate 4 (Cell.num 0)], 1) := by decide
  have hd := dropShape_lock squareOnOnes r _ _ _ 1 rfl (by decide) (by decide) hp hcl
  refine ⟨_, _, hp, hcl, by decide, by decide, by decide, ?_, ?_⟩
  · rw [hd]; rfl
  · rw [hd]; rfl

/-- C3: the 2x2 square locks in the two-column gap of rows 18 and 19: after
`placeShape` exactly rows 18 and 19 have every cell non-empty, yet `dropShape`
leaves the score as it was instead of adding 200. -/
theorem dropShape_two_rows_no_score (sc : Int) (r : Rand) :
    (placeShape gapBoard (ofRows [[1, 1], [1, 1]]) 4 18 Color.yellow).map fullRowIndices
      = some [18, 19] ∧
    isValidPosition gapBoard (ofRows [[1, 1], [1, 1]]) 4 19 = some false ∧
    (dropShape (squareInGap sc) r).map State.score = some sc := by
  have hp : placeShape gapBoard (ofRows [[1, 1], [1, 1]]) 4 18 Color.yellow
      = some (List.replicate 18 emptyRow ++
          [List.replicate 4 (Cell.color Color.cyan) ++ List.replicate 2 (Cell.color Color.yellow)
              ++ List.replicate 4 (Cell.color Color.cyan),
           List.replicate 4 (Cell.color Color.cyan) ++ List.replicate 2 (Cell.color Color.yellow)
              ++ List.replicate 4 (Cell.color Color.cyan)]) := by decide
  have hv : isValidPosition gapBoard (ofRows [[1, 1], [1, 1]]) 4 19 = some false := by decide
  have hy : (18 : Int) ≠ 0 := by decide
  have hcl : clearLines (List.replicate 18 emptyRow ++
          [List.replicate 4 (Cell.color Color.cyan) ++ List.replicate 2 (Cell.color Color.yellow)
              ++ List.replicate 4 (Cell.color Color.cyan),
           List.replicate 4 (Cell.color Color.cyan) ++ List.replicate 2 (Cell.color Color.yellow)
              ++ List.replicate 4 (Cell.color Color.cyan)])
      = some (List.replicate 18 emptyRow ++
          [List.replicate 4 (Cell.color Color.cyan) ++ List.replicate 2 (Cell.color Color.yellow)
              ++ List.replicate 4 (Cell.color Color.cyan),
           List.replicate 4 (Cell.color Color.cyan) ++ List.replicate 2 (Cell.color Color.yellow)
              ++ List.replicate 4 (Cell.color Color.cyan)], 0) := by decide
  have hd := dropShape_lock (squareInGap sc) r _ _ _ 0 rfl hv hy hp hcl
  refine ⟨by decide, hv, ?_⟩
  rw [hd]
  simp [squareInGap]

/-- C4: a board whose row 19 holds the color token `"cyan.500"` in all ten
cells and whose other rows are empty: `clearLines` returns 0, not 1, and leaves
the board as it was. -/
theorem clearLines_token_row :
    fullRowIndices bottomCyanBoard = [19] ∧
    (∀ v ∈ cyanRow, ∃ c ∈ COLORS, v = Cell.color c) ∧
    clearLines bottomCyanBoard = some (bottomCyanBoard, 0) := by
  refine ⟨by decide, by decide, by decide⟩

/-! ## Validity of a placement -/

theorem everyFrom_eq_some_true_iff {α : Type} (f : α → Nat → Option Bool) (i : Nat) (l : List α) :
    everyFrom f i l = some true ↔
      ∀ (k : Nat) (a : α), l.get? k = some a → f a (i + k) = some true := by
  induction l generalizing i with
  | nil => simp [everyFrom]
  | cons b bs ih =>
    simp only [everyFrom]
    cases hfb : f b i with
    | none =>
      constructor
      · intro h
        cases h
      · intro h
        have h0 := h 0 b rfl
        simp [hfb] at h0
    | some v =>
      cases v with
      | false =>
        simp only [Option.some.injEq, Bool.false_eq_true, false_iff]
        intro h
        have h0 := h 0 b rfl
        simp [hfb] at h0
      | true =>
        simp only [ih]
        constructor
        · intro h k a hk
          cases k with
          | zero =>
            simp at hk
            subst hk
            simpa using hfb
          | succ k =>
            have := h k a (by simpa using hk)
            rw [← this]
            congr 1
            omega
        · intro h k a hk
          have := h (k + 1) a (by simpa using hk)
          rw [← this]
          congr 1
          omega

theorem everyFrom_ne_none {α : Type} (f : α → Nat → Option Bool) (i : Nat) (l : List α)
    (hdef : ∀ (k : Nat) (a : α), l.get? k = some a → f a (i + k) ≠ none) :
    everyFrom f i l ≠ none := by
  induction l generalizing i with
  | nil => simp [everyFrom]
  | cons b bs ih =>
    simp only [everyFrom]
    cases hfb : f b i with
    | none =>
      have h0 := hdef 0 b rfl
      simp [hfb] at h0
    | some v =>
      cases v with
      | false => simp
      | true =>
        apply ih
        intro k a hk
        have := hdef (k + 1) a (by simpa using hk)
        rwa [show i + (k + 1) = i + 1 + k by omega] at this

theorem isValidPosition_eq_some_true_iff (board : Board) (shape : Shape) (x y : Int) :
    isValidPosition board shape x y = some true ↔
      ∀ (dy dx : Nat) (v : SVal), shapeAt shape dy dx = some v →
        cellValid board x y dy v dx = some true := by
  unfold isValidPosition
  rw [everyFrom_eq_some_true_iff]
  constructor
  · intro h dy dx v hv
    unfold shapeAt at hv
    cases hrow : shape.get? dy with
    | none =>
      rw [hrow] at hv
      cases hv
    | some row =>
      rw [hrow] at hv
      have h1 := h dy row hrow
      rw [everyFrom_eq_some_true_iff] at h1
      simpa using h1 dx v hv
  · intro h dy row hrow
    rw [everyFrom_eq_some_true_iff]
    intro dx v hv
    have := h dy dx v (by unfold shapeAt; rw [hrow]; exact hv)
    simpa using this

theorem isValidPosition_ne_none (board : Board) (shape : Shape) (x y : Int)
    (hdef : ∀ (dy dx : Nat) (v : SVal), shapeAt shape dy dx = some v →
        cellValid board x y dy v dx ≠ none) :
    isValidPosition board shape x y ≠ none := by
  unfold isValidPosition
  apply everyFrom_ne_none
  intro dy row hrow
  apply everyFrom_ne_none
  intro dx v hv
  have := hdef dy dx v (by unfold shapeAt; rw [hrow]; exact hv)
  simpa using this

theorem cellValid_zero (board : Board) (x y : Int) (dy dx : Nat) :
    cellValid board x y dy (SVal.num 0) dx = some true := by
  simp [cellValid]

theorem cellValid_occupied (board : Board) (x y : Int) (dy dx : Nat) (v : SVal)
    (hv : v ≠ SVal.num 0) :
    cellValid board x y dy v dx =
      if y + dy < 20 ∧ 0 ≤ x + dx ∧ x + dx < 10 then
        (rowAt board (y + dy)).map fun row => readsZero row (x + dx)
      else some false := by
  unfold cellValid
  simp only [hv, if_false, BOARD_HEIGHT, BOARD_WIDTH, Nat.cast_ofNat, ge_iff_le]
  split
  · cases rowAt board (y + dy) <;> rfl
  · rfl

theorem rowAt_map_readsZero (board : Board) (r c : Int) (hr : 0 ≤ r) (hc : 0 ≤ c) :
    ((rowAt board r).map fun row => readsZero row c) = some true ↔
      cellAt board r c = some (Cell.num 0) := by
  unfold rowAt cellAt readsZero
  have h1 : ¬ r < 0 := by omega
  have h2 : ¬ c < 0 := by omega
  simp only [h1, h2, if_false, or_self]
  cases board.get? r.toNat with
  | none => simp
  | some row => simp

theorem cellValid_one_iff (board : Board) (x y : Int) (dy dx : Nat) (hy : 0 ≤ y) :
    cellValid board x y dy (SVal.num 1) dx = some true ↔
      y + dy < 20 ∧ 0 ≤ x + dx ∧ x + dx < 10 ∧
        cellAt board (y + dy) (x + dx) = some (Cell.num 0) := by
  rw [cellValid_occupied board x y dy dx (SVal.num 1) (by decide)]
  split
  · rename_i h
    rw [rowAt_map_readsZero board _ _ (by omega) h.2.1]
    constructor
    · intro hc
      exact ⟨h.1, h.2.1, h.2.2, hc⟩
    · intro hc
      exact hc.2.2.2
  · rename_i h
    constructor
    · intro hc
      cases hc
    · intro hc
      exact absurd ⟨hc.1, hc.2.1, hc.2.2.1⟩ h

theorem cellValid_ne_none (board : Board) (x y : Int) (dy dx : Nat) (v : SVal)
    (hb : board.length = BOARD_HEIGHT) (hy : 0 ≤ y) :
    cellValid board x y dy v dx ≠ none := by
  by_cases hv : v = SVal.num 0
  · rw [hv, cellValid_zero]
    simp
  · rw [cellValid_occupied board x y dy dx v hv]
    split
    · rename_i h
      have hlt : (y + dy).toNat < board.length := by
        rw [hb]
        unfold BOARD_HEIGHT
        omega
      have hn : ¬ (y + dy < 0) := by omega
      simp [rowAt, hn, List.getElem?_eq_getElem hlt]
    · simp

/-- C5: for every board of 20 rows, every shape with entries 0 or 1 (rectangular
or not) and every anchor (x, y) with y >= 0, `isValidPosition` returns a
boolean, and it returns true exactly when every entry 1 of the shape, at offset
(dx, dy), satisfies y+dy < 20, 0 <= x+dx < 10 and board[y+dy][x+dx] is the empty
cell; entries 0 impose no condition. -/
theorem isValidPosition_iff (board : Board) (shape : Shape) (x y : Int)
    (hb : board.length = BOARD_HEIGHT) (hy : 0 ≤ y)
    (h01 : ∀ (dy dx : Nat) (v : SVal), shapeAt shape dy dx = some v →
      v = SVal.num 0 ∨ v = SVal.num 1) :
    (∃ b : Bool, isValidPosition board shape x y = some b) ∧
    (isValidPosition board shape x y = some true ↔
      ∀ dy dx : Nat, shapeAt shape dy dx = some (SVal.num 1) →
        y + dy < 20 ∧ 0 ≤ x + dx ∧ x + dx < 10 ∧
          cellAt board (y + dy) (x + dx) = some (Cell.num 0)) := by
  constructor
  · have hne := isValidPosition_ne_none board shape x y
      (fun dy dx v _ => cellValid_ne_none board x y dy dx v hb hy)
    cases h : isValidPosition board shape x y with
    | none => exact absurd h hne
    | some b => exact ⟨b, rfl⟩
  · rw [isValidPosition_eq_some_true_iff]
    constructor
    · intro h dy dx hv
      exact (cellValid_one_iff board x y dy dx hy).1 (h dy dx _ hv)
    · intro h dy dx v hv
      rcases h01 dy dx v hv with rfl | rfl
      · exact cellValid_zero board x y dy dx
      · exact (cellValid_one_iff board x y dy dx hy).2 (h dy dx hv)

/-! ## Validity above the board, game over, and the falling bar -/

theorem isValidPosition_iff_witness :
    createEmptyBoard.length = BOARD_HEIGHT ∧ (0 : Int) ≤ 3 ∧
    ((∃ b : Bool, isValidPosition createEmptyBoard (ofRows [[1, 1], [1, 1]]) 4 3 = some b) ∧
    (isValidPosition createEmptyBoard (ofRows [[1, 1], [1, 1]]) 4 3 = some true ↔
      ∀ dy dx : Nat, shapeAt (ofRows [[1, 1], [1, 1]]) dy dx = some (SVal.num 1) →
        (3 : Int) + dy < 20 ∧ 0 ≤ (4 : Int) + dx ∧ (4 : Int) + dx < 10 ∧
          cellAt createEmptyBoard (3 + dy) (4 + dx) = some (Cell.num 0))) :=
  ⟨by decide, by decide,
    isValidPosition_iff createEmptyBoard (ofRows [[1, 1], [1, 1]]) 4 3 (by decide) (by decide)
      (by
        intro dy dx v h
        match dy, dx, h with
        | 0, 0, h => right; simpa [shapeAt, ofRows] using h.symm
        | 0, 1, h => right; simpa [shapeAt, ofRows] using h.symm
        | 1, 0, h => right; simpa [shapeAt, ofRows] using h.symm
        | 1, 1, h => right; simpa [shapeAt, ofRows] using h.symm
        | 0, _ + 2, h => simp [shapeAt, ofRows] at h
        | 1, _ + 2, h => simp [shapeAt, ofRows] at h
        | _ + 2, _, h => simp [shapeAt, ofRows] at h)⟩

/-- C6, refuted as stated: over the empty board the single occupied cell of
`[[1]]` anchored at y = -1 lies above the board, yet `isValidPosition` returns
false at x = -1 (the column test applies to it), and at x = 4 the read of
`board[-1][4]` throws. -/
theorem isValidPosition_above_board_not_true :
    (∀ dy dx : Nat, shapeAt (ofRows [[1]]) dy dx = some (SVal.num 1) → (-1 : Int) + dy < 0) ∧
    isValidPosition createEmptyBoard (ofRows [[1]]) (-1) (-1) = some false ∧
    isValidPosition createEmptyBoard (ofRows [[1]]) 4 (-1) = none := by
  refine ⟨?_, by decide, by decide⟩
  intro dy dx h
  match dy, dx, h with
  | 0, _, _ => decide
  | _ + 1, _, h => simp [shapeAt, ofRows] at h

/-- C6, amended: occupied shape cells above the board are column-checked like
any other. For every board, shape and anchor such that the shape has an
occupied entry (an entry other than 0) and every occupied entry lands above the
board (y+dy < 0) and outside columns 0..9, `isValidPosition` returns false. -/
theorem isValidPosition_outside_columns (board : Board) (shape : Shape) (x y : Int)
    (hocc : ∃ (dy dx : Nat) (v : SVal), shapeAt shape dy dx = some v ∧ v ≠ SVal.num 0)
    (hall : ∀ (dy dx : Nat) (v : SVal), shapeAt shape dy dx = some v → v ≠ SVal.num 0 →
      y + dy < 0 ∧ (x + dx < 0 ∨ 10 ≤ x + dx)) :
    isValidPosition board shape x y = some false := by
  have hcell : ∀ (dy dx : Nat) (v : SVal), shapeAt shape dy dx = some v → v ≠ SVal.num 0 →
      cellValid board x y dy v dx = some false := by
    intro dy dx v h hv
    rw [cellValid_occupied board x y dy dx v hv]
    have := (hall dy dx v h hv).2
    rw [if_neg]
    omega
  have hne : isValidPosition board shape x y ≠ none := by
    apply isValidPosition_ne_none
    intro dy dx v h
    by_cases hv : v = SVal.num 0
    · rw [hv, cellValid_zero]; simp
    · rw [hcell dy dx v h hv]; simp
  have hnt : isValidPosition board shape x y ≠ some true := by
    intro ht
    rw [isValidPosition_eq_some_true_iff] at ht
    obtain ⟨dy, dx, v, h, hv⟩ := hocc
    have h1 := ht dy dx v h
    rw [hcell dy dx v h hv] at h1
    cases h1
  cases h : isValidPosition board shape x y with
  | none => exact absurd h hne
  | some b =>
    cases b with
    | false => rfl
    | true => exact absurd h hnt

theorem isValidPosition_outside_columns_witness :
    isValidPosition createEmptyBoard (ofRows [[1, 1, 1, 1]]) 10 (-1) = some false :=
  isValidPosition_outside_columns createEmptyBoard (ofRows [[1, 1, 1, 1]]) 10 (-1)
    ⟨0, 0, SVal.num 1, rfl, by decide⟩
    (by
      intro dy dx v h _
      match dy, h with
      | 0, _ => constructor <;> omega
      | _ + 1, h => simp [shapeAt, ofRows] at h)

/-- C7: when the anchor y is 0 and the placement at (x, 1) is invalid,
`dropShape` returns a state with `isRunning` false whose board, score, current
piece and position are those of the state it started from. -/
theorem dropShape_blocked_at_top (s : State) (r : Rand) (cur : Piece)
    (hc : s.current = some cur) (hy : s.position.y = 0)
    (hv : isValidPosition s.board cur.shape s.position.x 1 = some false) :
    ∃ t : State, dropShape s r = some t ∧ t.isRunning = false ∧ t.board = s.board ∧
      t.score = s.score ∧ t.current = s.current ∧ t.position = s.position := by
  refine ⟨{ s with isRunning := false }, ?_, rfl, rfl, rfl, rfl, rfl⟩
  apply dropShape_gameOver s r cur hc _ hy
  rw [hy]
  exact hv

theorem dropShape_blocked_at_top_witness :
    ∃ t : State, dropShape blockedSpawn ⟨0, 0⟩ = some t ∧ t.isRunning = false ∧
      t.board = blockedSpawn.board ∧ t.score = blockedSpawn.score ∧
      t.current = blockedSpawn.current ∧ t.position = blockedSpawn.position :=
  dropShape_blocked_at_top blockedSpawn ⟨0, 0⟩
    { shape := ofRows [[1, 1, 1, 1]], color := Color.red } rfl rfl (by decide)

/-- C8: from the empty board with the 1x4 bar at anchor (4, 0), score `sc`,
running, each of the first 19 calls of `dropShape` only increments the anchor y
(from k to k+1 for k = 0..18, the board staying empty), and the call at y = 19
locks the bar: the new board is empty except for columns 4 to 7 of row 19, the
score is still `sc`, the game is running and the new piece is at (4, 0). -/
theorem dropShape_bar_scenario (sc : Int) (c : Color) (r : Rand) :
    (∀ k : Fin 19, dropShape (barAt sc c k.val) r = some (barAt sc c (k.val + 1))) ∧
    (barAt sc c 19).board = createEmptyBoard ∧
    barLockedBoard c = List.replicate 19 (List.replicate 10 (Cell.num 0)) ++
      [[Cell.num 0, Cell.num 0, Cell.num 0, Cell.num 0, Cell.color c, Cell.color c,
        Cell.color c, Cell.color c, Cell.num 0, Cell.num 0]] ∧
    dropShape (barAt sc c 19) r = some
      { board := barLockedBoard c
        current := some (randomShape r)
        position := { x := 4, y := 0 }
        score := sc
        isRunning := true } := by
  refine ⟨?_, rfl, rfl, ?_⟩
  · intro k
    have hv : isValidPosition createEmptyBoard (ofRows [[1, 1, 1, 1]]) 4 ((k.val : Int) + 1)
        = some true := by
      revert k
      decide
    simp [dropShape, barAt, hv]
  · have hv : isValidPosition createEmptyBoard (ofRows [[1, 1, 1, 1]]) 4 20 = some false := by
      decide
    have hp : placeShape createEmptyBoard (ofRows [[1, 1, 1, 1]]) 4 19 c
        = some (barLockedBoard c) := by
      cases c <;> decide
    have hcl : clearLines (barLockedBoard c) = some (barLockedBoard c, 0) := by
      cases c <;> decide
    have hy : ((19 : Nat) : Int) ≠ 0 := by decide
    have hd := dropShape_lock (barAt sc c 19) r _ _ _ 0 rfl hv hy hp hcl
    rw [hd]
    simp [barAt, spawnPosition, BOARD_WIDTH]

/-! ## Rotation -/

theorem shapeAt_rect (shape : Shape) (h w i j : Nat) (hr : IsRect shape h w)
    (hi : i < h) (hj : j < w) :
    ∃ row, shape.get? i = some row ∧ row.length = w ∧
      shapeAt shape i j = some (row.getD j SVal.undefined) := by
  have hlt : i < shape.length := by rw [hr.1]; exact hi
  refine ⟨shape[i], by simp [List.getElem?_eq_getElem hlt], hr.2 _ (List.getElem_mem hlt), ?_⟩
  have hw : j < shape[i].length := by rw [hr.2 _ (List.getElem_mem hlt)]; exact hj
  simp [shapeAt, List.getElem?_eq_getElem hlt, List.getElem?_eq_getElem hw,
    List.getD_eq_getElem _ _ hw]

theorem rotated_eq (shape : Shape) (h w : Nat) (hr : IsRect shape h w) (hh : 0 < h) :
    rotated shape = some (((List.range w).map fun i =>
      shape.map fun row => row.getD i SVal.undefined).map List.reverse) := by
  cases shape with
  | nil =>
    have := hr.1
    simp at this
    omega
  | cons row0 rest =>
    have h0 : row0.length = w := hr.2 row0 (by simp)
    simp [rotated, h0]

theorem rotated_rect (shape rot : Shape) (h w : Nat) (hr : IsRect shape h w) (hh : 0 < h)
    (hrot : rotated shape = some rot) : IsRect rot w h := by
  rw [rotated_eq shape h w hr hh] at hrot
  cases hrot
  constructor
  · simp
  · intro row hrow
    simp only [List.map_map, List.mem_map, List.mem_range, Function.comp] at hrow
    obtain ⟨i, _, rfl⟩ := hrow
    simp [hr.1]

theorem rotated_entry (shape rot : Shape) (h w i j : Nat) (hr : IsRect shape h w) (hh : 0 < h)
    (hrot : rotated shape = some rot) (hi : i < w) (hj : j < h) :
    shapeAt rot i j = shapeAt shape (h - 1 - j) i := by
  rw [rotated_eq shape h w hr hh] at hrot
  cases hrot
  obtain ⟨row, hrow, _, hat⟩ := shapeAt_rect shape h w (h - 1 - j) i hr (by omega) hi
  rw [hat]
  have hlen : shape.length = h := hr.1
  simp only [shapeAt, List.map_map, List.get?_eq_getElem?, List.getElem?_map,
    List.getElem?_range hi, Option.map_some', Function.comp, Option.some_bind]
  rw [List.getElem?_reverse (by simp [hlen, hj])]
  simp only [List.length_map, hlen, List.getElem?_map]
  rw [List.get?_eq_getElem?] at hrow
  rw [hrow]
  rfl

theorem rect_ext (a b : Shape) (h w : Nat) (ha : IsRect a h w) (hb : IsRect b h w)
    (heq : ∀ i j : Nat, i < h → j < w → shapeAt a i j = shapeAt b i j) : a = b := by
  apply List.ext_getElem
  · rw [ha.1, hb.1]
  · intro i h1 h2
    have hi : i < h := by rw [← ha.1]; exact h1
    have la : a[i].length = w := ha.2 _ (List.getElem_mem h1)
    have lb : b[i].length = w := hb.2 _ (List.getElem_mem h2)
    apply List.ext_getElem
    · rw [la, lb]
    · intro j h3 h4
      have hj : j < w := by rw [← la]; exact h3
      have := heq i j hi hj
      simpa [shapeAt, List.getElem?_eq_getElem h1, List.getElem?_eq_getElem h2,
        List.getElem?_eq_getElem h3, List.getElem?_eq_getElem h4] using this

theorem rotated_isSome (shape : Shape) (h w : Nat) (hr : IsRect shape h w) (hh : 0 < h) :
    ∃ rot, rotated shape = some rot ∧ IsRect rot w h ∧
      ∀ i j : Nat, i < w → j < h → shapeAt rot i j = shapeAt shape (h - 1 - j) i := by
  refine ⟨_, rotated_eq shape h w hr hh, ?_, ?_⟩
  · exact rotated_rect shape _ h w hr hh (rotated_eq shape h w hr hh)
  · intro i j hi hj
    exact rotated_entry shape _ h w i j hr hh (rotated_eq shape h w hr hh) hi hj

theorem rotatedFour_rect (shape : Shape) (h w : Nat) (hr : IsRect shape h w)
    (hh : 0 < h) (hw : 0 < w) : rotatedFour shape = some shape := by
  obtain ⟨m1, e1, r1, f1⟩ := rotated_isSome shape h w hr hh
  obtain ⟨m2, e2, r2, f2⟩ := rotated_isSome m1 w h r1 hw
  obtain ⟨m3, e3, r3, f3⟩ := rotated_isSome m2 h w r2 hh
  obtain ⟨m4, e4, r4, f4⟩ := rotated_isSome m3 w h r3 hw
  have : m4 = shape := by
    apply rect_ext m4 shape h w r4 hr
    intro i j hi hj
    rw [f4 i j hi hj, f3 _ _ (by omega) hi, f2 _ _ (by omega) (by omega),
      f1 _ _ (by omega) (by omega)]
    congr 1 <;> omega
  simp [rotatedFour, e1, e2, e3, e4, this]

theorem sum_range_getD_eq_count (row : List SVal) (v : SVal) :
    ((List.range row.length).map fun i =>
      if row.getD i SVal.undefined = v then 1 else 0).sum = row.count v := by
  induction row with
  | nil => simp
  | cons a as ih =>
    rw [List.length_cons, List.range_succ_eq_map, List.map_cons, List.sum_cons, List.map_map]
    have : ((fun i => if (a :: as).getD i SVal.undefined = v then 1 else 0) ∘ Nat.succ)
        = fun i => if as.getD i SVal.undefined = v then 1 else 0 := by
      funext i
      simp
    rw [this, ih, List.count_cons]
    simp only [List.getD_cons_zero, beq_iff_eq]
    omega

theorem sum_columns_eq_sum_rows (shape : Shape) (w : Nat) (v : SVal)
    (hrows : ∀ row ∈ shape, row.length = w) :
    ((List.range w).map fun i =>
      (shape.map fun row => row.getD i SVal.undefined).count v).sum
      = (shape.map fun row => row.count v).sum := by
  induction shape with
  | nil => simp
  | cons r rs ih =>
    have hr : r.length = w := hrows r (by simp)
    have ih1 := ih (fun row hrow => hrows row (by simp [hrow]))
    simp only [List.map_cons, List.sum_cons, List.count_cons, beq_iff_eq]
    rw [List.sum_map_add, ih1, ← hr, sum_range_getD_eq_count r v]
    omega

theorem occupiedCount_rotated (shape rot : Shape) (h w : Nat) (hr : IsRect shape h w)
    (hrot : rotated shape = some rot) : occupiedCount rot = occupiedCount shape := by
  cases shape with
  | nil => simp [rotated] at hrot
  | cons row0 rest =>
    have h0 : row0.length = w := hr.2 row0 (by simp)
    simp only [rotated, Option.some.injEq] at hrot
    subst hrot
    unfold occupiedCount
    rw [List.map_map, List.map_map, h0]
    simp only [Function.comp_def, List.count_reverse]
    exact sum_columns_eq_sum_rows (row0 :: rest) w (SVal.num 1) hr.2

/-- C9: four successive computations of `rotated` succeed and give back the
matrix they started from, cell for cell and with the same dimensions, for every
rectangular matrix with at least one row and one column, and in particular for
each of the seven shapes of `SHAPES`. -/
theorem rotatedFour_eq_self (shape : Shape) (h w : Nat) (hr : IsRect shape h w)
    (hh : 0 < h) (hw : 0 < w) :
    rotatedFour shape = some shape ∧ ∀ s ∈ SHAPES, rotatedFour s = some s :=
  ⟨rotatedFour_rect shape h w hr hh hw, by decide⟩

theorem rotatedFour_eq_self_witness :
    IsRect (ofRows [[1, 1, 0], [0, 1, 1]]) 2 3 ∧
    (rotatedFour (ofRows [[1, 1, 0], [0, 1, 1]]) = some (ofRows [[1, 1, 0], [0, 1, 1]]) ∧
      ∀ s ∈ SHAPES, rotatedFour s = some s) :=
  ⟨⟨rfl, by decide⟩,
    rotatedFour_eq_self (ofRows [[1, 1, 0], [0, 1, 1]]) 2 3 ⟨rfl, by decide⟩
      (by decide) (by decide)⟩

/-- C10: for every rectangular shape with h >= 1 rows and w columns, `rotated`
succeeds with a matrix of w rows and h columns whose entry (i, j) is the entry
(h-1-j, i) of the shape, for all i < w and j < h (a clockwise quarter turn), and
which has as many entries equal to 1 as the shape. -/
theorem rotated_spec (shape : Shape) (h w : Nat) (hr : IsRect shape h w) (hh : 0 < h) :
    ∃ rot : Shape, rotated shape = some rot ∧ IsRect rot w h ∧
      (∀ i j : Nat, i < w → j < h →
        ∃ v : SVal, shapeAt shape (h - 1 - j) i = some v ∧ shapeAt rot i j = some v) ∧
      occupiedCount rot = occupiedCount shape := by
  obtain ⟨rot, e, r, f⟩ := rotated_isSome shape h w hr hh
  refine ⟨rot, e, r, ?_, occupiedCount_rotated shape rot h w hr e⟩
  intro i j hi hj
  obtain ⟨row, _, _, hat⟩ := shapeAt_rect shape h w (h - 1 - j) i hr (by omega) hi
  exact ⟨_, hat, by rw [f i j hi hj, hat]⟩

theorem rotated_spec_witness :
    IsRect (ofRows [[1, 1, 1], [0, 0, 1]]) 2 3 ∧
    ∃ rot : Shape, rotated (ofRows [[1, 1, 1], [0, 0, 1]]) = some rot ∧ IsRect rot 3 2 ∧
      (∀ i j : Nat, i < 3 → j < 2 →
        ∃ v : SVal, shapeAt (ofRows [[1, 1, 1], [0, 0, 1]]) (2 - 1 - j) i = some v ∧
          shapeAt rot i j = some v) ∧
      occupiedCount rot = occupiedCount (ofRows [[1, 1, 1], [0, 0, 1]]) :=
  ⟨⟨rfl, by decide⟩,
    rotated_spec (ofRows [[1, 1, 1], [0, 0, 1]]) 2 3 ⟨rfl, by decide⟩ (by decide)⟩

/-! ## Placing a shape -/

theorem sum_map_set {α : Type} (f : α → Nat) (l : List α) (i : Nat) (a : α)
    (h : i < l.length) :
    ((l.set i a).map f).sum + f l[i] = (l.map f).sum + f a := by
  induction l generalizing i with
  | nil => simp at h
  | cons b bs ih =>
    cases i with
    | zero => simp; omega
    | succ i =>
      have := ih i (by simpa using h)
      simp only [List.set_cons_succ, List.map_cons, List.sum_cons, List.getElem_cons_succ]
      omega

theorem countP_set_empty (row : Row) (j : Nat) (c : Color) (h : j < row.length)
    (h0 : row[j] = Cell.num 0) :
    (row.set j (Cell.color c)).countP Cell.nonEmpty = row.countP Cell.nonEmpty + 1 := by
  induction row generalizing j with
  | nil => simp at h
  | cons b bs ih =>
    cases j with
    | zero =>
      simp only [List.getElem_cons_zero] at h0
      subst h0
      simp [List.countP_cons, Cell.nonEmpty]
    | succ j =>
      have := ih j (by simpa using h) (by simpa using h0)
      simp only [List.set_cons_succ, List.countP_cons, this]
      omega

theorem writeCell_spec (b : Board) (nx ny : Int) (color : Color) (hg : IsGrid b)
    (hy : 0 ≤ ny) (hy2 : ny < 20) (hx : 0 ≤ nx) (hx2 : nx < 10) :
    ∃ b', writeCell b nx ny color = some b' ∧ IsGrid b' ∧
      (cellAt b' ny nx = some (Cell.color color)) ∧
      (∀ r c : Int, ¬ (r = ny ∧ c = nx) → cellAt b' r c = cellAt b r c) ∧
      (∀ k : Nat, (k : Int) ≠ ny → b'.get? k = b.get? k) ∧
      (cellAt b ny nx = some (Cell.num 0) → nonEmptyCount b' = nonEmptyCount b + 1) := by
  obtain ⟨hlen, hrows⟩ := hg
  have hlt : ny.toNat < b.length := by rw [hlen]; unfold BOARD_HEIGHT; omega
  have hrl : b[ny.toNat].length = 10 := hrows _ (List.getElem_mem hlt)
  have hxl : nx.toNat < b[ny.toNat].length := by rw [hrl]; omega
  have hnx : ¬ nx < 0 := by omega
  refine ⟨b.set ny.toNat (b[ny.toNat].set nx.toNat (Cell.color color)), ?_, ?_, ?_, ?_, ?_, ?_⟩
  · simp [writeCell, List.getElem?_eq_getElem hlt, setAt, hnx, hxl]
  · constructor
    · simpa using hlen
    · intro row hrow
      rcases List.mem_or_eq_of_mem_set hrow with h | h
      · exact hrows row h
      · rw [h, List.length_set]; exact hrl
  · have h1 : ¬ (ny < 0 ∨ nx < 0) := by omega
    simp [cellAt, h1, hlt, hxl]
  · intro r c hne
    unfold cellAt
    by_cases hneg : r < 0 ∨ c < 0
    · simp [hneg]
    · simp only [hneg, if_false]
      by_cases hr : r.toNat = ny.toNat
      · have hc : c.toNat ≠ nx.toNat := by omega
        rw [hr]
        simp [hlt, List.getElem?_set, Ne.symm hc]
      · simp [List.getElem?_set, Ne.symm hr]
  · intro k hk
    have : ny.toNat ≠ k := by omega
    simp [List.getElem?_set, this]
  · intro h0
    have h1 : ¬ (ny < 0 ∨ nx < 0) := by omega
    have h2 : b[ny.toNat][nx.toNat] = Cell.num 0 := by
      simpa [cellAt, h1, List.getElem?_eq_getElem hlt, List.getElem?_eq_getElem hxl] using h0
    unfold nonEmptyCount
    have h3 := sum_map_set (fun row : Row => row.countP Cell.nonEmpty) b ny.toNat
      (b[ny.toNat].set nx.toNat (Cell.color color)) hlt
    rw [countP_set_empty _ _ _ hxl h2] at h3
    omega

theorem placeRow_spec (x y : Int) (color : Color) (dy : Nat) (row : List SVal) (i : Nat)
    (b : Board) (hg : IsGrid b)
    (hin : ∀ k : Nat, row.get? k = some (SVal.num 1) → 0 ≤ y + dy →
      y + dy < 20 ∧ 0 ≤ x + ((i + k : Nat) : Int) ∧ x + ((i + k : Nat) : Int) < 10) :
    ∃ b', forEachFrom (placeCell x y color dy) i row b = some b' ∧ IsGrid b' ∧
      (∀ k : Nat, row.get? k = some (SVal.num 1) → 0 ≤ y + dy →
        cellAt b' (y + dy) (x + ((i + k : Nat) : Int)) = some (Cell.color color)) ∧
      (∀ r c : Int, ¬ (0 ≤ y + dy ∧ r = y + dy ∧
          ∃ k : Nat, row.get? k = some (SVal.num 1) ∧ c = x + ((i + k : Nat) : Int)) →
        cellAt b' r c = cellAt b r c) ∧
      (∀ n : Nat, (n : Int) ≠ y + dy → b'.get? n = b.get? n) ∧
      (0 ≤ y + dy →
        (∀ k : Nat, row.get? k = some (SVal.num 1) →
          cellAt b (y + dy) (x + ((i + k : Nat) : Int)) = some (Cell.num 0)) →
        nonEmptyCount b' = nonEmptyCount b + row.count (SVal.num 1)) := by
  induction row generalizing i b with
  | nil =>
    refine ⟨b, rfl, hg, ?_, ?_, ?_, ?_⟩
    · intro k hk; simp at hk
    · intro r c _; rfl
    · intro n _; rfl
    · intro _ _; simp
  | cons a rest ih =>
    have hin' : ∀ k : Nat, rest.get? k = some (SVal.num 1) → 0 ≤ y + dy →
        y + dy < 20 ∧ 0 ≤ x + ((i + 1 + k : Nat) : Int) ∧ x + ((i + 1 + k : Nat) : Int) < 10 := by
      intro k hk hy
      have := hin (k + 1) (by simpa using hk) hy
      rw [show i + 1 + k = i + (k + 1) by omega]
      exact this
    by_cases hw : a = SVal.num 1 ∧ 0 ≤ y + dy
    · obtain ⟨ha, hy⟩ := hw
      have h0 := hin 0 (by simp [ha]) hy
      simp only [Nat.add_zero] at h0
      obtain ⟨b1, e1, g1, w1, f1, r1, c1⟩ :=
        writeCell_spec b (x + (i : Nat)) (y + dy) color hg hy h0.1 h0.2.1 h0.2.2
      obtain ⟨b', e', g', w', f', r', c'⟩ := ih (i + 1) b1 g1 hin'
      refine ⟨b', ?_, g', ?_, ?_, ?_, ?_⟩
      · simp only [forEachFrom, placeCell, ha, if_true, ge_iff_le, hy, e1]
        exact e'
      · intro k hk _
        cases k with
        | zero =>
          simp only [Nat.add_zero]
          rw [f' _ _ ?_, w1]
          rintro ⟨_, _, k', _, hc⟩
          push_cast at hc
          omega
        | succ k =>
          have := w' k (by simpa using hk) hy
          rw [show i + (k + 1) = i + 1 + k by omega]
          exact this
      · intro r c hne
        rw [f' r c ?_, f1 r c ?_]
        · rintro ⟨hr, hc⟩
          exact hne ⟨hy, hr, 0, by simp [ha], by simpa using hc⟩
        · rintro ⟨_, hr, k', hk', hc⟩
          exact hne ⟨hy, hr, k' + 1, by simpa using hk', by
            rw [hc]; push_cast; omega⟩
      · intro n hn
        rw [r' n hn, r1 n hn]
      · intro _ hempty
        have he0 := hempty 0 (by simp [ha])
        simp only [Nat.add_zero] at he0
        have hc1 := c1 he0
        have hrest : ∀ k : Nat, rest.get? k = some (SVal.num 1) →
            cellAt b1 (y + dy) (x + ((i + 1 + k : Nat) : Int)) = some (Cell.num 0) := by
          intro k hk
          rw [f1 _ _ ?_]
          · have := hempty (k + 1) (by simpa using hk)
            rw [show i + 1 + k = i + (k + 1) by omega]
            exact this
          · rintro ⟨_, hc⟩
            push_cast at hc
            omega
        have hc2 := c' hy hrest
        rw [hc2, hc1, ha]
        simp [List.count_cons]
        omega
    · have e1 : placeCell x y color dy b a i = some b := by
        unfold placeCell
        by_cases ha : a = SVal.num 1
        · have hy : ¬ (0 ≤ y + dy) := fun h => hw ⟨ha, h⟩
          simp [ha, hy]
        · simp [ha]
      obtain ⟨b', e', g', w', f', r', c'⟩ := ih (i + 1) b hg hin'
      refine ⟨b', ?_, g', ?_, ?_, r', ?_⟩
      · simp only [forEachFrom, e1]
        exact e'
      · intro k hk hy
        cases k with
        | zero =>
          exfalso
          apply hw
          simp at hk
          exact ⟨hk, hy⟩
        | succ k =>
          have := w' k (by simpa using hk) hy
          rw [show i + (k + 1) = i + 1 + k by omega]
          exact this
      · intro r c hne
        rw [f' r c ?_]
        rintro ⟨hy, hr, k', hk', hc⟩
        exact hne ⟨hy, hr, k' + 1, by simpa using hk', by
          rw [hc]; push_cast; omega⟩
      · intro hy hempty
        have ha : a ≠ SVal.num 1 := fun h => hw ⟨h, hy⟩
        have hrest : ∀ k : Nat, rest.get? k = some (SVal.num 1) →
            cellAt b (y + dy) (x + ((i + 1 + k : Nat) : Int)) = some (Cell.num 0) := by
          intro k hk
          have := hempty (k + 1) (by simpa using hk)
          rw [show i + 1 + k = i + (k + 1) by omega]
          exact this
        rw [c' hy hrest]
        simp [List.count_cons, ha]

theorem placeRows_spec (x y : Int) (color : Color) (rows : List (List SVal)) (j : Nat)
    (b : Board) (hg : IsGrid b)
    (hin : ∀ dy dx : Nat, shapeAt rows dy dx = some (SVal.num 1) →
      0 ≤ y + ((j + dy : Nat) : Int) →
      y + ((j + dy : Nat) : Int) < 20 ∧ 0 ≤ x + (dx : Int) ∧ x + (dx : Int) < 10) :
    ∃ b', forEachFrom (fun b row dy => forEachFrom (placeCell x y color dy) 0 row b) j rows b
        = some b' ∧ IsGrid b' ∧
      (∀ dy dx : Nat, shapeAt rows dy dx = some (SVal.num 1) →
        0 ≤ y + ((j + dy : Nat) : Int) →
        cellAt b' (y + ((j + dy : Nat) : Int)) (x + (dx : Int)) = some (Cell.color color)) ∧
      (∀ r c : Int, ¬ (∃ dy dx : Nat, shapeAt rows dy dx = some (SVal.num 1) ∧
          0 ≤ r ∧ r = y + ((j + dy : Nat) : Int) ∧ c = x + (dx : Int)) →
        cellAt b' r c = cellAt b r c) ∧
      (∀ n : Nat, (∀ dy : Nat, (n : Int) ≠ y + ((j + dy : Nat) : Int)) → b'.get? n = b.get? n) ∧
      (0 ≤ y + (j : Int) →
        (∀ dy dx : Nat, shapeAt rows dy dx = some (SVal.num 1) →
          cellAt b (y + ((j + dy : Nat) : Int)) (x + (dx : Int)) = some (Cell.num 0)) →
        nonEmptyCount b' = nonEmptyCount b + occupiedCount rows) := by
  induction rows generalizing j b with
  | nil =>
    refine ⟨b, rfl, hg, ?_, ?_, ?_, ?_⟩
    · intro dy dx h; simp [shapeAt] at h
    · intro r c _; rfl
    · intro n _; rfl
    · intro _ _; simp [occupiedCount]
  | cons row rest ih =>
    have hshape0 : ∀ dx : Nat, row.get? dx = some (SVal.num 1) →
        shapeAt (row :: rest) 0 dx = some (SVal.num 1) := by
      intro dx h; simpa [shapeAt] using h
    have hshapeS : ∀ dy dx : Nat, shapeAt rest dy dx = some (SVal.num 1) →
        shapeAt (row :: rest) (dy + 1) dx = some (SVal.num 1) := by
      intro dy dx h; simpa [shapeAt] using h
    have hinRow : ∀ k : Nat, row.get? k = some (SVal.num 1) → 0 ≤ y + (j : Int) →
        y + (j : Int) < 20 ∧ 0 ≤ x + ((0 + k : Nat) : Int) ∧ x + ((0 + k : Nat) : Int) < 10 := by
      intro k hk hy
      have := hin 0 k (hshape0 k hk) (by simpa using hy)
      simpa using this
    obtain ⟨b1, e1, g1, w1, f1, r1, c1⟩ := placeRow_spec x y color j row 0 b hg hinRow
    have hin' : ∀ dy dx : Nat, shapeAt rest dy dx = some (SVal.num 1) →
        0 ≤ y + ((j + 1 + dy : Nat) : Int) →
        y + ((j + 1 + dy : Nat) : Int) < 20 ∧ 0 ≤ x + (dx : Int) ∧ x + (dx : Int) < 10 := by
      intro dy dx h hy
      have := hin (dy + 1) dx (hshapeS dy dx h) (by rw [show j + (dy + 1) = j + 1 + dy by omega]; exact hy)
      rw [show j + 1 + dy = j + (dy + 1) by omega]
      exact this
    obtain ⟨b', e', g', w', f', r', c'⟩ := ih (j + 1) b1 g1 hin'
    refine ⟨b', ?_, g', ?_, ?_, ?_, ?_⟩
    · simp only [forEachFrom, e1]
      exact e'
    · intro dy dx h hy
      cases dy with
      | zero =>
        have hk : row.get? dx = some (SVal.num 1) := by simpa [shapeAt] using h
        have hy0 : 0 ≤ y + (j : Int) := by simpa using hy
        have := w1 dx hk hy0
        simp only [Nat.add_zero, Nat.zero_add] at this ⊢
        rw [f' _ _ ?_, this]
        rintro ⟨dy', _, _, _, hr, _⟩
        push_cast at hr
        omega
      | succ dy =>
        have hs : shapeAt rest dy dx = some (SVal.num 1) := by simpa [shapeAt] using h
        have := w' dy dx hs (by rw [show j + 1 + dy = j + (dy + 1) by omega]; exact hy)
        rw [show j + (dy + 1) = j + 1 + dy by omega]
        exact this
    · intro r c hne
      rw [f' r c ?_, f1 r c ?_]
      · rintro ⟨hy, hr, k, hk, hc⟩
        exact hne ⟨0, k, hshape0 k hk, by omega, by simpa using hr, by simpa using hc⟩
      · rintro ⟨dy, dx, h, h0, hr, hc⟩
        exact hne ⟨dy + 1, dx, hshapeS dy dx h, h0, by
          rw [hr, show j + 1 + dy = j + (dy + 1) by omega], hc⟩
    · intro n hn
      rw [r' n ?_, r1 n ?_]
      · have := hn 0
        simpa using this
      · intro dy
        have := hn (dy + 1)
        rw [show j + 1 + dy = j + (dy + 1) by omega]
        exact this
    · intro hy hempty
      have hrow : ∀ k : Nat, row.get? k = some (SVal.num 1) →
          cellAt b (y + (j : Int)) (x + ((0 + k : Nat) : Int)) = some (Cell.num 0) := by
        intro k hk
        have := hempty 0 k (hshape0 k hk)
        simpa using this
      have hc1 := c1 hy hrow
      have hrest : ∀ dy dx : Nat, shapeAt rest dy dx = some (SVal.num 1) →
          cellAt b1 (y + ((j + 1 + dy : Nat) : Int)) (x + (dx : Int)) = some (Cell.num 0) := by
        intro dy dx h
        rw [f1 _ _ ?_]
        · have := hempty (dy + 1) dx (hshapeS dy dx h)
          rw [show j + 1 + dy = j + (dy + 1) by omega]
          exact this
        · rintro ⟨_, hr, _⟩
          push_cast at hr
          omega
      have hc2 := c' (by push_cast; omega) hrest
      rw [hc2, hc1]
      simp [occupiedCount]
      omega

theorem grid_ext (a b : Board) (ha : IsGrid a) (hb : IsGrid b)
    (heq : ∀ r c : Int, cellAt a r c = cellAt b r c) : a = b := by
  apply List.ext_getElem
  · rw [ha.1, hb.1]
  · intro i h1 h2
    have la : a[i].length = BOARD_WIDTH := ha.2 _ (List.getElem_mem h1)
    have lb : b[i].length = BOARD_WIDTH := hb.2 _ (List.getElem_mem h2)
    apply List.ext_getElem
    · rw [la, lb]
    · intro j h3 h4
      have := heq (i : Int) (j : Int)
      have hn : ¬ ((i : Int) < 0 ∨ (j : Int) < 0) := by omega
      simpa [cellAt, hn, List.getElem?_eq_getElem h1, List.getElem?_eq_getElem h2,
        List.getElem?_eq_getElem h3, List.getElem?_eq_getElem h4] using this

theorem placeShape_spec (board : Board) (shape : Shape) (x y : Int) (color : Color)
    (hg : IsGrid board)
    (hin : ∀ dy dx : Nat, shapeAt shape dy dx = some (SVal.num 1) → 0 ≤ y + (dy : Int) →
      y + (dy : Int) < 20 ∧ 0 ≤ x + (dx : Int) ∧ x + (dx : Int) < 10) :
    ∃ placed, placeShape board shape x y color = some placed ∧ IsGrid placed ∧
      (∀ r c : Int, 0 ≤ r → OccupiedAt shape x y r c →
        cellAt placed r c = some (Cell.color color)) ∧
      (∀ r c : Int, ¬ (0 ≤ r ∧ OccupiedAt shape x y r c) → cellAt placed r c = cellAt board r c) ∧
      (∀ n : Nat, (n : Int) < y → placed.get? n = board.get? n) ∧
      (0 ≤ y →
        (∀ dy dx : Nat, shapeAt shape dy dx = some (SVal.num 1) →
          cellAt board (y + (dy : Int)) (x + (dx : Int)) = some (Cell.num 0)) →
        nonEmptyCount placed = nonEmptyCount board + occupiedCount shape) := by
  have hin0 : ∀ dy dx : Nat, shapeAt shape dy dx = some (SVal.num 1) →
      0 ≤ y + ((0 + dy : Nat) : Int) →
      y + ((0 + dy : Nat) : Int) < 20 ∧ 0 ≤ x + (dx : Int) ∧ x + (dx : Int) < 10 := by
    intro dy dx h hy
    simp only [Nat.zero_add] at hy ⊢
    exact hin dy dx h hy
  obtain ⟨b', e, g, w, f, r, c⟩ := placeRows_spec x y color shape 0 board hg hin0
  refine ⟨b', e, g, ?_, ?_, ?_, ?_⟩
  · rintro r c hr ⟨dy, dx, h, rfl, rfl⟩
    have := w dy dx h (by simpa using hr)
    simpa using this
  · intro r c hne
    apply f
    rintro ⟨dy, dx, h, h0, hr, hc⟩
    simp only [Nat.zero_add] at hr
    exact hne ⟨h0, dy, dx, h, hr.symm, hc.symm⟩
  · intro n hn
    apply r
    intro dy
    push_cast
    omega
  · intro hy hempty
    apply c (by simpa using hy)
    intro dy dx h
    simp only [Nat.zero_add]
    exact hempty dy dx h

/-- C11, refuted as stated: over the board whose row 19 already holds
`"cyan.500"`, placing the 2x2 square with color `"cyan.500"` at (4, 0) (every
occupied cell inside the board) leaves cell (19, 0) equal to the color although
the shape has no occupied cell at that offset. -/
theorem placeShape_iff_fails :
    (∀ dy dx : Nat, shapeAt (ofRows [[1, 1], [1, 1]]) dy dx = some (SVal.num 1) →
      (0 : Int) ≤ 0 + (dy : Int) →
      (0 : Int) + (dy : Int) < 20 ∧ 0 ≤ (4 : Int) + (dx : Int) ∧ (4 : Int) + (dx : Int) < 10) ∧
    ∃ placed, placeShape bottomCyanBoard (ofRows [[1, 1], [1, 1]]) 4 0 Color.cyan = some placed ∧
      cellAt placed 19 0 = some (Cell.color Color.cyan) ∧
      ¬ OccupiedAt (ofRows [[1, 1], [1, 1]]) 4 0 19 0 := by
  constructor
  · intro dy dx h _
    match dy, dx, h with
    | 0, 0, _ => decide
    | 0, 1, _ => decide
    | 1, 0, _ => decide
    | 1, 1, _ => decide
    | 0, _ + 2, h => simp [shapeAt, ofRows] at h
    | 1, _ + 2, h => simp [shapeAt, ofRows] at h
    | _ + 2, _, h => simp [shapeAt, ofRows] at h
  · have hp : ∃ placed,
        placeShape bottomCyanBoard (ofRows [[1, 1], [1, 1]]) 4 0 Color.cyan = some placed ∧
        cellAt placed 19 0 = some (Cell.color Color.cyan) := by
      decide
    obtain ⟨placed, h1, h2⟩ := hp
    refine ⟨placed, h1, h2, ?_⟩
    rintro ⟨dy, dx, _, _, hc⟩
    omega

/-- C11, amended: for every 20x10 board, shape, color and anchor such that every
entry 1 of the shape with y+dy >= 0 lies inside the board, `placeShape` succeeds,
the board stays 20x10, the board cell (r, c) holds the color whenever the shape
has an entry 1 at offset (c-x, r-y), and every other cell keeps its previous
value; entries 1 with y+dy < 0 write nothing (if all are above, the board is
unchanged). -/
theorem placeShape_frame (board : Board) (shape : Shape) (x y : Int) (color : Color)
    (hg : IsGrid board)
    (hin : ∀ dy dx : Nat, shapeAt shape dy dx = some (SVal.num 1) → 0 ≤ y + (dy : Int) →
      y + (dy : Int) < 20 ∧ 0 ≤ x + (dx : Int) ∧ x + (dx : Int) < 10) :
    ∃ placed, placeShape board shape x y color = some placed ∧ IsGrid placed ∧
      (∀ r c : Int, 0 ≤ r → OccupiedAt shape x y r c →
        cellAt placed r c = some (Cell.color color)) ∧
      (∀ r c : Int, ¬ OccupiedAt shape x y r c → cellAt placed r c = cellAt board r c) ∧
      ((∀ dy dx : Nat, shapeAt shape dy dx = some (SVal.num 1) → y + (dy : Int) < 0) →
        placed = board) := by
  obtain ⟨placed, e, g, w, f, _, _⟩ := placeShape_spec board shape x y color hg hin
  refine ⟨placed, e, g, w, ?_, ?_⟩
  · intro r c hne
    exact f r c (fun h => hne h.2)
  · intro habove
    apply grid_ext placed board g hg
    intro r c
    apply f
    rintro ⟨hr, dy, dx, h, rfl, _⟩
    have := habove dy dx h
    omega

theorem placeShape_frame_witness :
    IsGrid createEmptyBoard ∧
    ∃ placed, placeShape createEmptyBoard (ofRows [[1]]) 3 5 Color.green = some placed ∧
      IsGrid placed ∧
      (∀ r c : Int, 0 ≤ r → OccupiedAt (ofRows [[1]]) 3 5 r c →
        cellAt placed r c = some (Cell.color Color.green)) ∧
      (∀ r c : Int, ¬ OccupiedAt (ofRows [[1]]) 3 5 r c →
        cellAt placed r c = cellAt createEmptyBoard r c) ∧
      ((∀ dy dx : Nat, shapeAt (ofRows [[1]]) dy dx = some (SVal.num 1) →
          (5 : Int) + (dy : Int) < 0) → placed = createEmptyBoard) :=
  ⟨⟨rfl, by decide⟩,
    placeShape_frame createEmptyBoard (ofRows [[1]]) 3 5 Color.green ⟨rfl, by decide⟩
      (by
        intro dy dx h _
        match dy, dx, h with
        | 0, 0, _ => decide
        | 0, _ + 1, h => simp [shapeAt, ofRows] at h
        | _ + 1, _, h => simp [shapeAt, ofRows] at h)⟩


/-! ## The outcomes of each command -/

theorem moveLeft_cases (s t : State) (h : moveLeft s = some t) :
    ∃ cur, s.current = some cur ∧
      (t = s ∨
        (isValidPosition s.board cur.shape (s.position.x - 1) s.position.y = some true ∧
          t = { s with position := { s.position with x := s.position.x - 1 } })) := by
  unfold moveLeft at h
  cases hc : s.current with
  | none => simp [hc] at h
  | some cur =>
    refine ⟨cur, rfl, ?_⟩
    simp only [hc] at h
    cases hv : isValidPosition s.board cur.shape (s.position.x - 1) s.position.y with
    | none => simp [hv] at h
    | some v =>
      cases v with
      | false =>
        simp only [hv, Option.some.injEq] at h
        exact Or.inl h.symm
      | true =>
        simp only [hv, Option.some.injEq] at h
        exact Or.inr ⟨rfl, h.symm⟩

theorem moveRight_cases (s t : State) (h : moveRight s = some t) :
    ∃ cur, s.current = some cur ∧
      (t = s ∨
        (isValidPosition s.board cur.shape (s.position.x + 1) s.position.y = some true ∧
          t = { s with position := { s.position with x := s.position.x + 1 } })) := by
  unfold moveRight at h
  cases hc : s.current with
  | none => simp [hc] at h
  | some cur =>
    refine ⟨cur, rfl, ?_⟩
    simp only [hc] at h
    cases hv : isValidPosition s.board cur.shape (s.position.x + 1) s.position.y with
    | none => simp [hv] at h
    | some v =>
      cases v with
      | false =>
        simp only [hv, Option.some.injEq] at h
        exact Or.inl h.symm
      | true =>
        simp only [hv, Option.some.injEq] at h
        exact Or.inr ⟨rfl, h.symm⟩

theorem rotateShape_cases (s t : State) (h : rotateShape s = some t) :
    ∃ cur rot, s.current = some cur ∧ rotated cur.shape = some rot ∧
      (t = s ∨
        (isValidPosition s.board rot s.position.x s.position.y = some true ∧
          t = { s with current := some { cur with shape := rot } })) := by
  unfold rotateShape at h
  cases hc : s.current with
  | none => simp [hc] at h
  | some cur =>
    simp only [hc] at h
    cases hr : rotated cur.shape with
    | none => simp [hr] at h
    | some rot =>
      refine ⟨cur, rot, rfl, hr, ?_⟩
      simp only [hr] at h
      cases hv : isValidPosition s.board rot s.position.x s.position.y with
      | none => simp [hv] at h
      | some v =>
        cases v with
        | false =>
          simp only [hv, Option.some.injEq] at h
          exact Or.inl h.symm
        | true =>
          simp only [hv, Option.some.injEq] at h
          exact Or.inr ⟨rfl, h.symm⟩

theorem dropShape_cases (s t : State) (r : Rand) (h : dropShape s r = some t) :
    ∃ cur, s.current = some cur ∧
      ((isValidPosition s.board cur.shape s.position.x (s.position.y + 1) = some true ∧
          t = { s with position := { s.position with y := s.position.y + 1 } }) ∨
        (isValidPosition s.board cur.shape s.position.x (s.position.y + 1) = some false ∧
          s.position.y = 0 ∧ t = { s with isRunning := false }) ∨
        (isValidPosition s.board cur.shape s.position.x (s.position.y + 1) = some false ∧
          s.position.y ≠ 0 ∧
          ∃ (placed cleared : Board) (n : Nat),
            placeShape s.board cur.shape s.position.x s.position.y cur.color = some placed ∧
            clearLines placed = some (cleared, n) ∧
            t = { board := placed
                  current := some (randomShape r)
                  position := spawnPosition
                  score := s.score + n * 100
                  isRunning := s.isRunning })) := by
  unfold dropShape at h
  cases hc : s.current with
  | none => simp [hc] at h
  | some cur =>
    refine ⟨cur, rfl, ?_⟩
    simp only [hc] at h
    cases hv : isValidPosition s.board cur.shape s.position.x (s.position.y + 1) with
    | none => simp [hv] at h
    | some v =>
      cases v with
      | true =>
        simp only [hv, Option.some.injEq] at h
        exact Or.inl ⟨rfl, h.symm⟩
      | false =>
        simp only [hv] at h
        by_cases hy : s.position.y = 0
        · simp only [hy, if_true, Option.some.injEq] at h
          exact Or.inr (Or.inl ⟨rfl, hy, by rw [← h]⟩)
        · simp only [hy, if_false] at h
          cases hp : placeShape s.board cur.shape s.position.x s.position.y cur.color with
          | none => simp [hp] at h
          | some placed =>
            simp only [hp] at h
            cases hcl : clearLines placed with
            | none => simp [hcl] at h
            | some res =>
              obtain ⟨cleared, n⟩ := res
              simp only [hcl, Option.some.injEq] at h
              exact Or.inr (Or.inr ⟨rfl, hy, placed, cleared, n, rfl, hcl, h.symm⟩)

theorem clearLinesLoop_spec (k : Nat) (b : Board) (n : Nat) (hk : k ≤ b.length)
    (hrows : ∀ row ∈ b, row.length = BOARD_WIDTH) :
    ∃ (b' : Board) (m : Nat), clearLinesLoop k b n = some (b', m) ∧ b'.length = b.length ∧
      (∀ row ∈ b', row.length = BOARD_WIDTH) ∧ n ≤ m := by
  induction k generalizing b n with
  | zero => exact ⟨b, n, rfl, rfl, hrows, le_refl n⟩
  | succ k ih =>
    have hlt : k < b.length := by omega
    simp only [clearLinesLoop, List.get?_eq_getElem?, List.getElem?_eq_getElem hlt]
    by_cases hf : isFullRow b[k] = true
    · simp only [hf, if_true]
      have hlen : (emptyRow :: b.eraseIdx k).length = b.length := by
        simp [List.length_eraseIdx, hlt]
        omega
      have hrows' : ∀ row ∈ emptyRow :: b.eraseIdx k, row.length = BOARD_WIDTH := by
        intro row hrow
        rcases List.mem_cons.1 hrow with h | h
        · rw [h]; simp [emptyRow]
        · exact hrows row (List.mem_of_mem_eraseIdx h)
      obtain ⟨b', m, e, l, rws, hm⟩ := ih (emptyRow :: b.eraseIdx k) (n + 1) (by omega) hrows'
      exact ⟨b', m, e, by rw [l, hlen], rws, by omega⟩
    · simp only [hf]
      obtain ⟨b', m, e, l, rws, hm⟩ := ih b n (by omega) hrows
      exact ⟨b', m, e, l, rws, hm⟩

theorem clearLines_grid (b : Board) (hg : IsGrid b) :
    ∃ (cleared : Board) (n : Nat), clearLines b = some (cleared, n) ∧ IsGrid cleared := by
  obtain ⟨b', m, e, l, rws, _⟩ := clearLinesLoop_spec BOARD_HEIGHT b 0 (by rw [hg.1]) hg.2
  exact ⟨b', m, e, by rw [IsGrid, l]; exact ⟨hg.1, rws⟩⟩

/-! ## The invariant of the reachable states -/

theorem valid_cells (board : Board) (shape : Shape) (x y : Int) (hy : 0 ≤ y)
    (hv : isValidPosition board shape x y = some true) :
    ∀ dy dx : Nat, shapeAt shape dy dx = some (SVal.num 1) →
      y + (dy : Int) < 20 ∧ 0 ≤ x + (dx : Int) ∧ x + (dx : Int) < 10 ∧
        cellAt board (y + (dy : Int)) (x + (dx : Int)) = some (Cell.num 0) := by
  intro dy dx h
  rw [isValidPosition_eq_some_true_iff] at hv
  exact (cellValid_one_iff board x y dy dx hy).1 (hv dy dx _ h)

theorem SHAPES_rect (shape : Shape) (hs : shape ∈ SHAPES) :
    ∃ h w : Nat, IsRect shape h w ∧ 0 < h ∧ 0 < w := by
  simp only [SHAPES, List.mem_cons, List.mem_singleton, List.not_mem_nil, or_false] at hs
  rcases hs with rfl | rfl | rfl | rfl | rfl | rfl | rfl
  · exact ⟨1, 4, ⟨rfl, by decide⟩, by decide, by decide⟩
  · exact ⟨2, 2, ⟨rfl, by decide⟩, by decide, by decide⟩
  · exact ⟨2, 3, ⟨rfl, by decide⟩, by decide, by decide⟩
  · exact ⟨2, 3, ⟨rfl, by decide⟩, by decide, by decide⟩
  · exact ⟨2, 3, ⟨rfl, by decide⟩, by decide, by decide⟩
  · exact ⟨2, 3, ⟨rfl, by decide⟩, by decide, by decide⟩
  · exact ⟨2, 3, ⟨rfl, by decide⟩, by decide, by decide⟩

theorem randomShape_mem (r : Rand) :
    (randomShape r).shape ∈ SHAPES ∧ (randomShape r).color ∈ COLORS :=
  ⟨List.get_mem _ _ _, List.get_mem _ _ _⟩

theorem randomShape_rect (r : Rand) :
    ∃ h w : Nat, IsRect (randomShape r).shape h w ∧ 0 < h ∧ 0 < w :=
  SHAPES_rect _ (randomShape_mem r).1

theorem createEmptyBoard_grid : IsGrid createEmptyBoard := ⟨rfl, by decide⟩

theorem wellFormed_startGame (s0 : State) (r : Rand) : WellFormed (startGame s0 r) := by
  refine ⟨createEmptyBoard_grid, rfl, le_refl _, ⟨0, rfl⟩, randomShape r, rfl,
    randomShape_rect r, ?_⟩
  intro h
  exact absurd h (show ¬ ((0 : Int) < 0) by decide)

theorem wellFormed_moveLeft (s t : State) (hs : WellFormed s) (h : moveLeft s = some t) :
    WellFormed t := by
  obtain ⟨cur, hc, ht⟩ := moveLeft_cases s t h
  rcases ht with rfl | ⟨hv, rfl⟩
  · exact hs
  · obtain ⟨hg, h0, hy, hsc, cur', hc', hrect, _⟩ := hs
    rw [hc] at hc'
    cases hc'
    exact ⟨hg, h0, hy, hsc, cur, hc, hrect, fun _ => hv⟩

theorem wellFormed_moveRight (s t : State) (hs : WellFormed s) (h : moveRight s = some t) :
    WellFormed t := by
  obtain ⟨cur, hc, ht⟩ := moveRight_cases s t h
  rcases ht with rfl | ⟨hv, rfl⟩
  · exact hs
  · obtain ⟨hg, h0, hy, hsc, cur', hc', hrect, _⟩ := hs
    rw [hc] at hc'
    cases hc'
    exact ⟨hg, h0, hy, hsc, cur, hc, hrect, fun _ => hv⟩

theorem wellFormed_rotateShape (s t : State) (hs : WellFormed s) (h : rotateShape s = some t) :
    WellFormed t := by
  obtain ⟨cur, rot, hc, hr, ht⟩ := rotateShape_cases s t h
  rcases ht with rfl | ⟨hv, rfl⟩
  · exact hs
  · obtain ⟨hg, h0, hy, hsc, cur', hc', ⟨hh, w, hrect, hpos, wpos⟩, _⟩ := hs
    rw [hc] at hc'
    cases hc'
    exact ⟨hg, h0, hy, hsc, { cur with shape := rot }, rfl,
      ⟨w, hh, rotated_rect cur.shape rot hh w hrect hpos hr, wpos, hpos⟩, fun _ => hv⟩

theorem wellFormed_dropShape (s t : State) (r : Rand) (hs : WellFormed s)
    (h : dropShape s r = some t) : WellFormed t := by
  obtain ⟨cur, hc, ht⟩ := dropShape_cases s t r h
  obtain ⟨hg, h0, hy, ⟨k, hsc⟩, cur', hc', hrect, hvalid⟩ := hs
  rw [hc] at hc'
  cases hc'
  rcases ht with ⟨hv, rfl⟩ | ⟨_, _, rfl⟩ | ⟨_, hy0, placed, cleared, n, hp, _, rfl⟩
  · exact ⟨hg, h0, by simp only; omega, ⟨k, hsc⟩, cur, hc, hrect, fun _ => hv⟩
  · exact ⟨hg, h0, hy, ⟨k, hsc⟩, cur, hc, hrect, hvalid⟩
  · have hpos : 0 < s.position.y := by omega
    have hcells := valid_cells s.board cur.shape s.position.x s.position.y hy (hvalid hpos)
    obtain ⟨placed', e, g, _, _, hrow, _⟩ :=
      placeShape_spec s.board cur.shape s.position.x s.position.y cur.color hg
        (fun dy dx hsh _ => ⟨(hcells dy dx hsh).1, (hcells dy dx hsh).2.1, (hcells dy dx hsh).2.2.1⟩)
    rw [hp] at e
    cases e
    refine ⟨g, ?_, le_refl _, ⟨k + n, ?_⟩, randomShape r, rfl, randomShape_rect r, ?_⟩
    · have := hrow 0 (by simpa using hpos)
      simp only at this ⊢
      rw [this]
      exact h0
    · simp only [hsc]
      push_cast
      ring
    · intro hlt
      exact absurd hlt (show ¬ ((0 : Int) < 0) by decide)

theorem reachable_wellFormed (s : State) (h : Reachable s) : WellFormed s := by
  induction h with
  | start s0 r => exact wellFormed_startGame s0 r
  | left _ hm ih => exact wellFormed_moveLeft _ _ ih hm
  | right _ hm ih => exact wellFormed_moveRight _ _ ih hm
  | rotate _ hm ih => exact wellFormed_rotateShape _ _ ih hm
  | drop r _ hm ih => exact wellFormed_dropShape _ _ r ih hm

/-! ## Commands at the edge, starting a game, and the score -/

/-- C12: in every state with a 20-row board, a current piece and anchor y >= 0
in which some entry 1 of the current shape lies in board column 0 (x+dx = 0),
`moveLeft` returns the state unchanged: position, board, piece, score and
running flag. -/
theorem moveLeft_at_left_edge (s : State) (cur : Piece) (hc : s.current = some cur)
    (hb : s.board.length = BOARD_HEIGHT) (hy : 0 ≤ s.position.y)
    (hedge : ∃ dy dx : Nat, shapeAt cur.shape dy dx = some (SVal.num 1) ∧
      s.position.x + (dx : Int) = 0) :
    moveLeft s = some s := by
  have hne : isValidPosition s.board cur.shape (s.position.x - 1) s.position.y ≠ none :=
    isValidPosition_ne_none _ _ _ _
      (fun dy dx v _ => cellValid_ne_none s.board _ _ dy dx v hb hy)
  have hnt : isValidPosition s.board cur.shape (s.position.x - 1) s.position.y ≠ some true := by
    intro ht
    obtain ⟨dy, dx, h1, hx⟩ := hedge
    have := valid_cells _ _ _ _ hy ht dy dx h1
    omega
  unfold moveLeft
  simp only [hc]
  cases hv : isValidPosition s.board cur.shape (s.position.x - 1) s.position.y with
  | none => exact absurd hv hne
  | some v =>
    cases v with
    | true => exact absurd hv hnt
    | false => rfl

theorem moveLeft_at_left_edge_witness : moveLeft leftEdgeState = some leftEdgeState :=
  moveLeft_at_left_edge leftEdgeState { shape := ofRows [[1, 1, 1, 1]], color := Color.blue }
    rfl rfl (by decide) ⟨0, 0, rfl, by decide⟩

/-- C13: from every state `startGame` produces a state whose board has 20 rows
of 10 empty cells, whose score is 0, whose running flag is true, whose anchor is
(4, 0), and whose current piece has a shape of the 7-entry `SHAPES` and a color
of the 7-entry `COLORS`. -/
theorem startGame_spec (s : State) (r : Rand) :
    (startGame s r).board = List.replicate 20 (List.replicate 10 (Cell.num 0)) ∧
    (startGame s r).score = 0 ∧
    (startGame s r).isRunning = true ∧
    (startGame s r).position = { x := 4, y := 0 } ∧
    (∃ p : Piece, (startGame s r).current = some p ∧ p.shape ∈ SHAPES ∧ p.color ∈ COLORS) ∧
    SHAPES.length = 7 ∧ COLORS.length = 7 :=
  ⟨rfl, rfl, rfl, rfl, ⟨randomShape r, rfl, randomShape_mem r⟩, rfl, rfl⟩

/-- C14: in every state reachable from `startGame` by the four piece commands
the score is 100 times a natural number; `moveLeft`, `moveRight` and
`rotateShape` leave it unchanged; `dropShape` never decreases it and either
leaves it unchanged or adds 100 times the count `clearLines` returned in that
step; `startGame` sets it to 0. -/
theorem score_multiple_of_100 (s : State) (hs : Reachable s) :
    (∃ k : Nat, s.score = 100 * (k : Int)) ∧
    (∀ t : State, moveLeft s = some t → t.score = s.score) ∧
    (∀ t : State, moveRight s = some t → t.score = s.score) ∧
    (∀ t : State, rotateShape s = some t → t.score = s.score) ∧
    (∀ (r : Rand) (t : State), dropShape s r = some t →
      s.score ≤ t.score ∧
      (t.score = s.score ∨
        ∃ (cur : Piece) (placed cleared : Board) (n : Nat), s.current = some cur ∧
          placeShape s.board cur.shape s.position.x s.position.y cur.color = some placed ∧
          clearLines placed = some (cleared, n) ∧ t.score = s.score + 100 * (n : Int))) ∧
    (∀ (s0 : State) (r : Rand), (startGame s0 r).score = 0) := by
  refine ⟨(reachable_wellFormed s hs).2.2.2.1, ?_, ?_, ?_, ?_, fun _ _ => rfl⟩
  · intro t h
    obtain ⟨cur, _, ht⟩ := moveLeft_cases s t h
    rcases ht with rfl | ⟨_, rfl⟩ <;> rfl
  · intro t h
    obtain ⟨cur, _, ht⟩ := moveRight_cases s t h
    rcases ht with rfl | ⟨_, rfl⟩ <;> rfl
  · intro t h
    obtain ⟨cur, rot, _, _, ht⟩ := rotateShape_cases s t h
    rcases ht with rfl | ⟨_, rfl⟩ <;> rfl
  · intro r t h
    obtain ⟨cur, hc, ht⟩ := dropShape_cases s t r h
    rcases ht with ⟨_, rfl⟩ | ⟨_, _, rfl⟩ | ⟨_, _, placed, cleared, n, hp, hcl, rfl⟩
    · exact ⟨le_refl _, Or.inl rfl⟩
    · exact ⟨le_refl _, Or.inl rfl⟩
    · refine ⟨?_, Or.inr ⟨cur, placed, cleared, n, hc, hp, hcl, ?_⟩⟩
      · simp only
        omega
      · simp only
        ring

theorem score_multiple_of_100_witness :
    (∃ k : Nat, (startGame initialState barDraw).score = 100 * (k : Int)) :=
  (score_multiple_of_100 (startGame initialState barDraw) (Reachable.start _ _)).1

/-! ## Piece presence, board dimensions and the idle state -/

theorem runCmds_reachable (cmds : List Cmd) (s t : State) (hs : ReachableFromInitial s)
    (h : runCmds s cmds = some t) : ReachableFromInitial t := by
  induction cmds generalizing s with
  | nil =>
    simp only [runCmds, Option.some.injEq] at h
    rw [← h]
    exact hs
  | cons c cs ih =>
    simp only [runCmds] at h
    cases hc : c.apply s with
    | none => simp [hc] at h
    | some u =>
      simp only [hc] at h
      apply ih u _ h
      cases c with
      | startGame r =>
        simp only [Cmd.apply, Option.some.injEq] at hc
        rw [← hc]
        exact ReachableFromInitial.start r hs
      | moveLeft => exact ReachableFromInitial.left hs hc
      | moveRight => exact ReachableFromInitial.right hs hc
      | rotateShape => exact ReachableFromInitial.rotate hs hc
      | dropShape r => exact ReachableFromInitial.drop r hs hc

set_option maxRecDepth 100000 in
/-- C15, refuted as stated: the game `stackingGame`, played from the state of
the first render, ends in the game-over branch of `dropShape`, and the state it
reaches has the running flag false and the current piece still present. -/
theorem piece_present_after_game_over :
    ∃ s : State, runCmds initialState stackingGame = some s ∧ ReachableFromInitial s ∧
      s.current ≠ none ∧ s.isRunning = false := by
  have h1 : (runCmds initialState stackingGame).map
      (fun s => (s.current.isSome, s.isRunning)) = some (true, false) := by decide
  cases h : runCmds initialState stackingGame with
  | none => simp [h] at h1
  | some s =>
    simp only [h, Option.map_some', Option.some.injEq, Prod.mk.injEq] at h1
    refine ⟨s, rfl, runCmds_reachable _ _ _ ReachableFromInitial.init h, ?_, h1.2⟩
    intro hn
    rw [hn] at h1
    simp at h1

theorem command_keeps_piece (s t : State) :
    (moveLeft s = some t → t.current ≠ none) ∧ (moveRight s = some t → t.current ≠ none) ∧
    (rotateShape s = some t → t.current ≠ none) ∧
    (∀ r : Rand, dropShape s r = some t → t.current ≠ none) := by
  refine ⟨?_, ?_, ?_, ?_⟩
  · intro h
    obtain ⟨cur, hc, ht⟩ := moveLeft_cases s t h
    rcases ht with rfl | ⟨_, rfl⟩ <;> simp [hc]
  · intro h
    obtain ⟨cur, hc, ht⟩ := moveRight_cases s t h
    rcases ht with rfl | ⟨_, rfl⟩ <;> simp [hc]
  · intro h
    obtain ⟨cur, rot, hc, _, ht⟩ := rotateShape_cases s t h
    rcases ht with rfl | ⟨_, rfl⟩ <;> simp [hc]
  · intro r h
    obtain ⟨cur, hc, ht⟩ := dropShape_cases s t r h
    rcases ht with ⟨_, rfl⟩ | ⟨_, _, rfl⟩ | ⟨_, _, placed, cleared, n, _, _, rfl⟩ <;> simp [hc]

/-- C15, amended: in every state reachable from the state of the first render by
`startGame`, `moveLeft`, `moveRight`, `rotateShape` and `dropShape`, if the
running flag is true then the current piece is present; the game-over branch of
`dropShape` sets the flag to false and keeps the current piece. -/
theorem running_implies_piece (s : State) (hs : ReachableFromInitial s) :
    (s.isRunning = true → s.current ≠ none) ∧
    (∀ (r : Rand) (cur : Piece), s.current = some cur → s.position.y = 0 →
      isValidPosition s.board cur.shape s.position.x 1 = some false →
      ∃ t : State, dropShape s r = some t ∧ t.isRunning = false ∧ t.current = some cur) := by
  constructor
  · induction hs with
    | init => intro h; cases h
    | start r _ _ => intro _; simp [startGame]
    | left _ hm _ => exact fun _ => (command_keeps_piece _ _).1 hm
    | right _ hm _ => exact fun _ => (command_keeps_piece _ _).2.1 hm
    | rotate _ hm _ => exact fun _ => (command_keeps_piece _ _).2.2.1 hm
    | drop r _ hm _ => exact fun _ => (command_keeps_piece _ _).2.2.2 r hm
  · intro r cur hc hy hv
    refine ⟨{ s with isRunning := false }, ?_, rfl, hc⟩
    apply dropShape_gameOver s r cur hc _ hy
    rw [hy]
    exact hv

theorem running_implies_piece_witness :
    (startGame initialState barDraw).isRunning = true ∧
    ∃ p : Piece, (startGame initialState barDraw).current = some p :=
  ⟨rfl, Option.ne_none_iff_exists'.1
    ((running_implies_piece (startGame initialState barDraw)
      (ReachableFromInitial.start barDraw ReachableFromInitial.init)).1 rfl)⟩

/-- C16: in every state reachable from `startGame` by the four piece commands,
with any draw at each spawn, the board has exactly 20 rows of exactly 10 cells;
so has the board after any further `dropShape` (a lock writes inside the grid),
and `clearLines` run on the board succeeds and leaves 20 rows of 10 cells. -/
theorem board_dimensions_fixed (s : State) (hs : Reachable s) :
    (s.board.length = 20 ∧ ∀ row ∈ s.board, row.length = 10) ∧
    (∀ (r : Rand) (t : State), dropShape s r = some t →
      t.board.length = 20 ∧ ∀ row ∈ t.board, row.length = 10) ∧
    (∃ (cleared : Board) (n : Nat), clearLines s.board = some (cleared, n) ∧
      cleared.length = 20 ∧ ∀ row ∈ cleared, row.length = 10) := by
  have hg := (reachable_wellFormed s hs).1
  refine ⟨hg, ?_, ?_⟩
  · intro r t h
    exact (reachable_wellFormed t (Reachable.drop r hs h)).1
  · obtain ⟨cleared, n, e, g⟩ := clearLines_grid s.board hg
    exact ⟨cleared, n, e, g⟩

theorem board_dimensions_fixed_witness :
    (startGame initialState barDraw).board.length = 20 ∧
      ∀ row ∈ (startGame initialState barDraw).board, row.length = 10 :=
  (board_dimensions_fixed (startGame initialState barDraw) (Reachable.start _ _)).1

/-- C17: when the running flag is false, `handleKeyDown` returns the state
unchanged for every key (no command runs, nothing throws), the tick has no
delay (it is disabled), and `startGame` does change the state. -/
theorem not_running_ignores_keys (s : State) (h : s.isRunning = false) :
    (∀ (r : Rand) (key : Key), handleKeyDown s r key = some s) ∧
    tickDelay s = none ∧
    (∀ r : Rand, startGame s r ≠ s) := by
  refine ⟨?_, ?_, ?_⟩
  · intro r key
    simp [handleKeyDown, h]
  · simp [tickDelay, h]
  · intro r heq
    have : (startGame s r).isRunning = s.isRunning := by rw [heq]
    rw [h] at this
    cases this

theorem not_running_ignores_keys_witness :
    (∀ (r : Rand) (key : Key), handleKeyDown initialState r key = some initialState) ∧
    tickDelay initialState = none ∧
    (∀ r : Rand, startGame initialState r ≠ initialState) :=
  not_running_ignores_keys initialState rfl

/-! ## Valid placements, the top row and totality of the commands -/

theorem lock_places (s : State) (cur : Piece) (hs : WellFormed s) (hc : s.current = some cur)
    (hy : s.position.y ≠ 0) :
    (∀ dy dx : Nat, shapeAt cur.shape dy dx = some (SVal.num 1) →
      0 ≤ s.position.y + (dy : Int) ∧ s.position.y + (dy : Int) < 20 ∧
      0 ≤ s.position.x + (dx : Int) ∧ s.position.x + (dx : Int) < 10 ∧
      cellAt s.board (s.position.y + (dy : Int)) (s.position.x + (dx : Int))
        = some (Cell.num 0)) ∧
    ∃ placed : Board,
      placeShape s.board cur.shape s.position.x s.position.y cur.color = some placed ∧
      IsGrid placed ∧
      nonEmptyCount placed = nonEmptyCount s.board + occupiedCount cur.shape := by
  obtain ⟨hg, _, hy0, _, cur', hc', _, hvalid⟩ := hs
  rw [hc] at hc'
  cases hc'
  have hpos : 0 < s.position.y := by omega
  have hcells := valid_cells s.board cur.shape s.position.x s.position.y hy0 (hvalid hpos)
  constructor
  · intro dy dx h
    have := hcells dy dx h
    exact ⟨by omega, this⟩
  · obtain ⟨placed, e, g, _, _, _, hcount⟩ :=
      placeShape_spec s.board cur.shape s.position.x s.position.y cur.color hg
        (fun dy dx hsh _ => ⟨(hcells dy dx hsh).1, (hcells dy dx hsh).2.1, (hcells dy dx hsh).2.2.1⟩)
    exact ⟨placed, e, g, hcount hy0 (fun dy dx hsh => (hcells dy dx hsh).2.2.2)⟩

theorem dropShape_total (s : State) (r : Rand) (hs : WellFormed s) :
    ∃ t : State, dropShape s r = some t := by
  have hs' := hs
  obtain ⟨hg, _, hy0, _, cur, hc, _, _⟩ := hs
  have hne : isValidPosition s.board cur.shape s.position.x (s.position.y + 1) ≠ none :=
    isValidPosition_ne_none _ _ _ _
      (fun dy dx v _ => cellValid_ne_none s.board _ _ dy dx v hg.1 (by omega))
  cases hv : isValidPosition s.board cur.shape s.position.x (s.position.y + 1) with
  | none => exact absurd hv hne
  | some v =>
    cases v with
    | true => simp [dropShape, hc, hv]
    | false =>
      by_cases hy : s.position.y = 0
      · exact ⟨_, dropShape_gameOver s r cur hc hv hy⟩
      · obtain ⟨_, placed, hp, g, _⟩ := lock_places s cur hs' hc hy
        obtain ⟨cleared, n, hcl, _⟩ := clearLines_grid placed g
        exact ⟨_, dropShape_lock s r cur placed cleared n hc hv hy hp hcl⟩

/-- C18: in every state reachable from `startGame` by the four piece commands
(running or not) the current piece is present and, if the anchor y is greater
than 0, the current placement is valid. Hence when `dropShape` takes its lock
branch (placement at y+1 invalid, y not 0), every entry 1 of the shape lies over
a board cell inside the grid that is empty, `placeShape` succeeds, the number of
non-empty board cells grows by exactly the number of entries 1 of the shape, and
`dropShape` returns a state holding that placed board. -/
theorem placement_valid_below_top (s : State) (hs : Reachable s) :
    ∃ cur : Piece, s.current = some cur ∧
      (0 < s.position.y →
        isValidPosition s.board cur.shape s.position.x s.position.y = some true) ∧
      (isValidPosition s.board cur.shape s.position.x (s.position.y + 1) = some false →
        s.position.y ≠ 0 →
        (∀ dy dx : Nat, shapeAt cur.shape dy dx = some (SVal.num 1) →
          0 ≤ s.position.y + (dy : Int) ∧ s.position.y + (dy : Int) < 20 ∧
          0 ≤ s.position.x + (dx : Int) ∧ s.position.x + (dx : Int) < 10 ∧
          cellAt s.board (s.position.y + (dy : Int)) (s.position.x + (dx : Int))
            = some (Cell.num 0)) ∧
        ∃ placed : Board,
          placeShape s.board cur.shape s.position.x s.position.y cur.color = some placed ∧
          nonEmptyCount placed = nonEmptyCount s.board + occupiedCount cur.shape ∧
          ∀ r : Rand, ∃ t : State, dropShape s r = some t ∧ t.board = placed) := by
  have hw := reachable_wellFormed s hs
  obtain ⟨cur, hc, _, hvalid⟩ := hw.2.2.2.2
  refine ⟨cur, hc, hvalid, ?_⟩
  intro hv hy
  obtain ⟨hcells, placed, hp, g, hcount⟩ := lock_places s cur hw hc hy
  refine ⟨hcells, placed, hp, hcount, ?_⟩
  intro r
  obtain ⟨cleared, n, hcl, _⟩ := clearLines_grid placed g
  exact ⟨_, dropShape_lock s r cur placed cleared n hc hv hy hp hcl, rfl⟩

theorem barAt_drop (sc : Int) (c : Color) (r : Rand) (k : Nat) (hk : k < 19) :
    dropShape (barAt sc c k) r = some (barAt sc c (k + 1)) := by
  have hv : ∀ j : Fin 19,
      isValidPosition createEmptyBoard (ofRows [[1, 1, 1, 1]]) 4 ((j.val : Int) + 1)
        = some true := by
    decide
  have := hv ⟨k, hk⟩
  simp only at this
  simp [dropShape, barAt, this]

theorem barAt_reachable (k : Nat) (hk : k ≤ 19) : Reachable (barAt 0 Color.cyan k) := by
  induction k with
  | zero => exact Reachable.start initialState barDraw
  | succ k ih =>
    exact Reachable.drop barDraw (ih (by omega)) (barAt_drop 0 Color.cyan barDraw k (by omega))

theorem placement_valid_below_top_witness :
    Reachable (barAt 0 Color.cyan 19) ∧
    (0 : Int) < (barAt 0 Color.cyan 19).position.y ∧
    isValidPosition createEmptyBoard (ofRows [[1, 1, 1, 1]]) 4 19 = some true ∧
    isValidPosition createEmptyBoard (ofRows [[1, 1, 1, 1]]) 4 20 = some false ∧
    (∀ dy dx : Nat, shapeAt (ofRows [[1, 1, 1, 1]]) dy dx = some (SVal.num 1) →
      (0 : Int) ≤ 19 + (dy : Int) ∧ (19 : Int) + (dy : Int) < 20 ∧
      (0 : Int) ≤ 4 + (dx : Int) ∧ (4 : Int) + (dx : Int) < 10 ∧
      cellAt createEmptyBoard (19 + (dy : Int)) (4 + (dx : Int)) = some (Cell.num 0)) ∧
    ∃ placed : Board,
      placeShape createEmptyBoard (ofRows [[1, 1, 1, 1]]) 4 19 Color.cyan = some placed ∧
      nonEmptyCount placed = nonEmptyCount createEmptyBoard + occupiedCount (ofRows [[1, 1, 1, 1]]) ∧
      ∀ r : Rand, ∃ t : State, dropShape (barAt 0 Color.cyan 19) r = some t ∧ t.board = placed := by
  have hr := barAt_reachable 19 (le_refl 19)
  obtain ⟨cur, hc, hv, hlock⟩ := placement_valid_below_top (barAt 0 Color.cyan 19) hr
  have hcur : cur = { shape := ofRows [[1, 1, 1, 1]], color := Color.cyan } := by
    simp only [barAt, Option.some.injEq] at hc
    exact hc.symm
  subst hcur
  have hy : (0 : Int) < (barAt 0 Color.cyan 19).position.y := by decide
  obtain ⟨hcells, placed, hp, hcnt, hdrop⟩ := hlock (by decide) (by decide)
  exact ⟨hr, hy, hv hy, by decide, hcells, placed, hp, hcnt, hdrop⟩

theorem clearLinesLoop_row_zero (k : Nat) (b b' : Board) (n m : Nat)
    (h0 : b.get? 0 = some emptyRow) (h : clearLinesLoop k b n = some (b', m)) :
    b'.get? 0 = some emptyRow := by
  induction k generalizing b n with
  | zero =>
    simp only [clearLinesLoop, Option.some.injEq, Prod.mk.injEq] at h
    rw [← h.1]
    exact h0
  | succ k ih =>
    simp only [clearLinesLoop] at h
    cases hr : List.get? b k with
    | none =>
      rw [hr] at h
      simp at h
    | some row =>
      rw [hr] at h
      by_cases hf : isFullRow row = true
      · simp only [hf, if_true] at h
        exact ih (emptyRow :: b.eraseIdx k) (n + 1) rfl h
      · simp only [hf] at h
        exact ih _ _ h0 h

/-- C19: in every state reachable from `startGame` by the four piece commands,
row 0 of the board is ten empty cells; it still is after any further
`dropShape`, and `clearLines` run on the board leaves an empty row 0. -/
theorem row_zero_empty (s : State) (hs : Reachable s) :
    s.board.get? 0 = some (List.replicate 10 (Cell.num 0)) ∧
    (∀ (r : Rand) (t : State), dropShape s r = some t →
      t.board.get? 0 = some (List.replicate 10 (Cell.num 0))) ∧
    (∃ (cleared : Board) (n : Nat), clearLines s.board = some (cleared, n) ∧
      cleared.get? 0 = some (List.replicate 10 (Cell.num 0))) := by
  have hw := reachable_wellFormed s hs
  refine ⟨hw.2.1, ?_, ?_⟩
  · intro r t h
    exact (reachable_wellFormed t (Reachable.drop r hs h)).2.1
  · obtain ⟨cleared, n, e, _⟩ := clearLines_grid s.board hw.1
    exact ⟨cleared, n, e, clearLinesLoop_row_zero _ _ _ _ _ hw.2.1 e⟩

theorem row_zero_empty_witness :
    (startGame initialState barDraw).board.get? 0 = some (List.replicate 10 (Cell.num 0)) :=
  (row_zero_empty (startGame initialState barDraw) (Reachable.start _ _)).1

/-- C20: in every state reachable from `startGame` by the four piece commands
the anchor has y >= 0; every cell with 0 <= ny < 20 and 0 <= nx < 10, which are
the only coordinates the guards of `isValidPosition` let it read, exists in the
board; `moveLeft`, `moveRight`, `rotateShape` and `dropShape` all return a state
(none throws); and in the lock branch every cell `placeShape` writes has
0 <= ny < 20 and 0 <= nx < 10. -/
theorem commands_in_range (s : State) (hs : Reachable s) :
    0 ≤ s.position.y ∧
    (∀ ny nx : Int, 0 ≤ ny → ny < 20 → 0 ≤ nx → nx < 10 →
      ∃ cell : Cell, cellAt s.board ny nx = some cell) ∧
    (∃ t : State, moveLeft s = some t) ∧
    (∃ t : State, moveRight s = some t) ∧
    (∃ t : State, rotateShape s = some t) ∧
    (∀ r : Rand, ∃ t : State, dropShape s r = some t) ∧
    (∀ cur : Piece, s.current = some cur →
      isValidPosition s.board cur.shape s.position.x (s.position.y + 1) = some false →
      s.position.y ≠ 0 →
      ∀ dy dx : Nat, shapeAt cur.shape dy dx = some (SVal.num 1) →
        0 ≤ s.position.y + (dy : Int) ∧ s.position.y + (dy : Int) < 20 ∧
        0 ≤ s.position.x + (dx : Int) ∧ s.position.x + (dx : Int) < 10) := by
  have hw := reachable_wellFormed s hs
  obtain ⟨hg, _, hy0, _, cur, hc, ⟨h, w, hrect, hpos, _⟩, _⟩ := hw
  have hdef : ∀ (shape : Shape) (x y : Int), 0 ≤ y →
      ∃ v : Bool, isValidPosition s.board shape x y = some v := by
    intro shape x y hy
    have hne : isValidPosition s.board shape x y ≠ none :=
      isValidPosition_ne_none _ _ _ _
        (fun dy dx v _ => cellValid_ne_none s.board _ _ dy dx v hg.1 hy)
    cases hv : isValidPosition s.board shape x y with
    | none => exact absurd hv hne
    | some v => exact ⟨v, rfl⟩
  refine ⟨hy0, ?_, ?_, ?_, ?_, ?_, ?_⟩
  · intro ny nx h1 h2 h3 h4
    have hlt : ny.toNat < s.board.length := by rw [hg.1]; unfold BOARD_HEIGHT; omega
    have hrl : s.board[ny.toNat].length = 10 := hg.2 _ (List.getElem_mem hlt)
    have hxl : nx.toNat < s.board[ny.toNat].length := by rw [hrl]; omega
    have hn : ¬ (ny < 0 ∨ nx < 0) := by omega
    exact ⟨s.board[ny.toNat][nx.toNat], by
      simp [cellAt, hn, List.getElem?_eq_getElem hlt, List.getElem?_eq_getElem hxl]⟩
  · obtain ⟨v, hv⟩ := hdef cur.shape (s.position.x - 1) s.position.y hy0
    cases v <;> simp [moveLeft, hc, hv]
  · obtain ⟨v, hv⟩ := hdef cur.shape (s.position.x + 1) s.position.y hy0
    cases v <;> simp [moveRight, hc, hv]
  · obtain ⟨rot, hr, _, _⟩ := rotated_isSome cur.shape h w hrect hpos
    obtain ⟨v, hv⟩ := hdef rot s.position.x s.position.y hy0
    cases v <;> simp [rotateShape, hc, hr, hv]
  · intro r
    exact dropShape_total s r (reachable_wellFormed s hs)
  · intro cur' hc' _ hy dy dx hsh
    have := (lock_places s cur' (reachable_wellFormed s hs) hc' hy).1 dy dx hsh
    exact ⟨this.1, this.2.1, this.2.2.1, this.2.2.2.1⟩

theorem commands_in_range_witness :
    (0 : Int) ≤ (startGame initialState barDraw).position.y :=
  (commands_in_range (startGame initialState barDraw) (Reachable.start _ _)).1

/-! ## The board kept by a lock, on the boards of the game -/

theorem isFullRow_zeroOrToken (row : Row) (hlen : row.length = BOARD_WIDTH)
    (hcells : ∀ v ∈ row, v = Cell.num 0 ∨ ∃ c : Color, v = Cell.color c) :
    isFullRow row = false := by
  cases row with
  | nil => simp [BOARD_WIDTH] at hlen
  | cons a rest =>
    have ha : gtZero a = false := by
      rcases hcells a (by simp) with rfl | ⟨c, rfl⟩
      · decide
      · rfl
    simp [isFullRow, ha]

theorem clearLinesLoop_none_full (k : Nat) (b : Board) (n : Nat) (hk : k ≤ b.length)
    (hfull : ∀ row ∈ b, isFullRow row = false) :
    clearLinesLoop k b n = some (b, n) := by
  induction k with
  | zero => rfl
  | succ k ih =>
    have hlt : k < b.length := by omega
    have hf : isFullRow b[k] = false := hfull _ (List.getElem_mem hlt)
    simp only [clearLinesLoop, List.get?_eq_getElem?, List.getElem?_eq_getElem hlt, hf]
    exact ih (by omega)

theorem clearLines_zeroOrToken (b : Board) (hg : IsGrid b) (hcells : ZeroOrToken b) :
    clearLines b = some (b, 0) :=
  clearLinesLoop_none_full BOARD_HEIGHT b 0 (by rw [hg.1])
    (fun row hrow => isFullRow_zeroOrToken row (hg.2 row hrow) (hcells row hrow))

theorem zeroOrToken_of_cells (b : Board)
    (h : ∀ (r c : Int) (v : Cell), cellAt b r c = some v →
      v = Cell.num 0 ∨ ∃ col : Color, v = Cell.color col) : ZeroOrToken b := by
  intro row hrow v hv
  obtain ⟨i, hi, rfl⟩ := List.getElem_of_mem hrow
  obtain ⟨j, hj, rfl⟩ := List.getElem_of_mem hv
  apply h (i : Int) (j : Int)
  have hn : ¬ ((i : Int) < 0 ∨ (j : Int) < 0) := by omega
  simp [cellAt, hn, List.getElem?_eq_getElem hi, List.getElem?_eq_getElem hj]

theorem cells_of_zeroOrToken (b : Board) (hb : ZeroOrToken b) (r c : Int) (v : Cell)
    (h : cellAt b r c = some v) : v = Cell.num 0 ∨ ∃ col : Color, v = Cell.color col := by
  unfold cellAt at h
  by_cases hn : r < 0 ∨ c < 0
  · simp [hn] at h
  · simp only [hn, if_false] at h
    cases hrow : b.get? r.toNat with
    | none => rw [hrow] at h; cases h
    | some row =>
      rw [hrow] at h
      exact hb row (List.get?_mem hrow) v (List.get?_mem h)

theorem placeShape_zeroOrToken (board placed : Board) (shape : Shape) (x y : Int)
    (color : Color) (hg : IsGrid board) (hcells : ZeroOrToken board)
    (hin : ∀ dy dx : Nat, shapeAt shape dy dx = some (SVal.num 1) → 0 ≤ y + (dy : Int) →
      y + (dy : Int) < 20 ∧ 0 ≤ x + (dx : Int) ∧ x + (dx : Int) < 10)
    (hp : placeShape board shape x y color = some placed) :
    IsGrid placed ∧ ZeroOrToken placed := by
  obtain ⟨placed', e, g, w, f, _, _⟩ := placeShape_spec board shape x y color hg hin
  rw [hp] at e
  cases e
  refine ⟨g, zeroOrToken_of_cells placed ?_⟩
  intro r c v hv
  by_cases hocc : 0 ≤ r ∧ OccupiedAt shape x y r c
  · rw [w r c hocc.1 hocc.2] at hv
    cases hv
    exact Or.inr ⟨color, rfl⟩
  · rw [f r c hocc] at hv
    exact cells_of_zeroOrToken board hcells r c v hv

theorem zeroOrToken_of_catalog (b : Board)
    (h : ∀ row ∈ b, ∀ v ∈ row, v = Cell.num 0 ∨ v ∈ COLORS.map Cell.color) : ZeroOrToken b := by
  intro row hrow v hv
  rcases h row hrow v hv with h0 | hc
  · exact Or.inl h0
  · obtain ⟨c, _, rfl⟩ := List.mem_map.1 hc
    exact Or.inr ⟨c, rfl⟩

/-- C2: for every state whose board is 20x10 with every cell the number 0 or a
color token (the only values the component stores; `reachable_zeroOrToken`),
whose piece sits at a valid placement with anchor y > 0 (as it does in every
reachable state with y > 0) and cannot descend, `dropShape` returns a state, and
the board that state holds is the board obtained by `placeShape` followed by
`clearLines`. -/
theorem dropShape_board_is_cleared (s : State) (cur : Piece)
    (hg : IsGrid s.board) (hcells : ZeroOrToken s.board)
    (hc : s.current = some cur) (hy : 0 < s.position.y)
    (hvalid : isValidPosition s.board cur.shape s.position.x s.position.y = some true)
    (hdown : isValidPosition s.board cur.shape s.position.x (s.position.y + 1) = some false) :
    ∀ r : Rand, ∃ (t : State) (placed cleared : Board) (n : Nat),
      dropShape s r = some t ∧
      placeShape s.board cur.shape s.position.x s.position.y cur.color = some placed ∧
      clearLines placed = some (cleared, n) ∧
      t.board = cleared := by
  intro r
  have hcellsValid := valid_cells s.board cur.shape s.position.x s.position.y (by omega) hvalid
  have hin : ∀ dy dx : Nat, shapeAt cur.shape dy dx = some (SVal.num 1) →
      0 ≤ s.position.y + (dy : Int) →
      s.position.y + (dy : Int) < 20 ∧ 0 ≤ s.position.x + (dx : Int) ∧
        s.position.x + (dx : Int) < 10 :=
    fun dy dx hsh _ =>
      ⟨(hcellsValid dy dx hsh).1, (hcellsValid dy dx hsh).2.1, (hcellsValid dy dx hsh).2.2.1⟩
  obtain ⟨placed, hp, _⟩ :=
    placeShape_spec s.board cur.shape s.position.x s.position.y cur.color hg hin
  obtain ⟨g, z⟩ := placeShape_zeroOrToken s.board placed cur.shape s.position.x s.position.y
    cur.color hg hcells hin hp
  have hcl := clearLines_zeroOrToken placed g z
  exact ⟨_, placed, placed, 0,
    dropShape_lock s r cur placed placed 0 hc hdown (by omega) hp hcl, hp, hcl, rfl⟩

theorem dropShape_board_is_cleared_witness :
    IsGrid (squareInGap 0).board ∧ ZeroOrToken (squareInGap 0).board ∧
    (0 : Int) < (squareInGap 0).position.y ∧
    isValidPosition gapBoard (ofRows [[1, 1], [1, 1]]) 4 18 = some true ∧
    isValidPosition gapBoard (ofRows [[1, 1], [1, 1]]) 4 19 = some false ∧
    ∀ r : Rand, ∃ (t : State) (placed cleared : Board) (n : Nat),
      dropShape (squareInGap 0) r = some t ∧
      placeShape gapBoard (ofRows [[1, 1], [1, 1]]) 4 18 Color.yellow = some placed ∧
      clearLines placed = some (cleared, n) ∧
      t.board = cleared :=
  ⟨⟨rfl, by decide⟩, zeroOrToken_of_catalog _ (by decide), by decide, by decide, by decide,
    dropShape_board_is_cleared (squareInGap 0)
      { shape := ofRows [[1, 1], [1, 1]], color := Color.yellow }
      ⟨rfl, by decide⟩ (zeroOrToken_of_catalog _ (by decide)) rfl (by decide) (by decide) (by decide)⟩

theorem reachable_zeroOrToken (s : State) (hs : Reachable s) : ZeroOrToken s.board := by
  induction hs with
  | start s0 r =>
    exact zeroOrToken_of_catalog createEmptyBoard (by decide)
  | left _ hm ih =>
    obtain ⟨cur, _, ht⟩ := moveLeft_cases _ _ hm
    rcases ht with rfl | ⟨_, rfl⟩ <;> exact ih
  | right _ hm ih =>
    obtain ⟨cur, _, ht⟩ := moveRight_cases _ _ hm
    rcases ht with rfl | ⟨_, rfl⟩ <;> exact ih
  | rotate _ hm ih =>
    obtain ⟨cur, rot, _, _, ht⟩ := rotateShape_cases _ _ hm
    rcases ht with rfl | ⟨_, rfl⟩ <;> exact ih
  | @drop s t r hr hm ih =>
    obtain ⟨cur, hc, ht⟩ := dropShape_cases _ _ r hm
    rcases ht with ⟨_, rfl⟩ | ⟨_, _, rfl⟩ | ⟨_, hy0, placed, cleared, n, hp, _, rfl⟩
    · exact ih
    · exact ih
    · have hw := reachable_wellFormed s hr
      have hcells := (lock_places s cur hw hc hy0).1
      exact (placeShape_zeroOrToken s.board placed cur.shape s.position.x s.position.y
        cur.color hw.1 ih
        (fun dy dx hsh _ => ⟨(hcells dy dx hsh).2.1, (hcells dy dx hsh).2.2.1,
          (hcells dy dx hsh).2.2.2.1⟩) hp).2

end Tetris
